import Mathlib

/-!
Verification of the tetromino-tiling contribution-graph generator
(`scripts/generate-tetris-svg.js`, "pixel-perfect tiling" variant).

The JavaScript source is shallowly embedded below: 32-bit machine
integers become `Nat` with explicit `% 2^32`, mutable arrays become
lists passed explicitly, and the RNG closure becomes an explicit
stream `Nat → Nat` of raw 32-bit outputs (the source divides each by
2^32 to obtain a float in `[0,1)`; we keep the integer numerator and
translate `Math.floor(rng() * n)` to `r * n / 2^32`, which is exact
since the products involved stay far below 2^53).
-/

/-- 2^32, the modulus of all 32-bit coercions (`>>> 0`, `Math.imul`, `^`). -/
def M32 : Nat := 4294967296

/-- `Math.imul` on the unsigned-bit-pattern representation: low 32 bits of the product. -/
def imul32 (a b : Nat) : Nat := (a * b) % M32

/-- One state update of `mulberry32`: `t += 0x6d2b79f5` on the 32-bit state. -/
def mulberryStep (t : Nat) : Nat := (t + 0x6d2b79f5) % M32

/-- The output mixing of `mulberry32` applied to the (already incremented) state `t`:
`r = imul(t ^ (t >>> 15), 1 | t); r ^= r + imul(r ^ (r >>> 7), 61 | r); return (r ^ (r >>> 14)) >>> 0`.
We return the raw 32-bit numerator of the float `r / 4294967296`. -/
def mulberryOut (t : Nat) : Nat :=
  let r := imul32 (Nat.xor t (t >>> 15)) (Nat.lor 1 t)
  let r := Nat.xor r ((r + imul32 (Nat.xor r (r >>> 7)) (Nat.lor 61 r)) % M32)
  Nat.xor r (r >>> 14)

/-- The 32-bit state of the `mulberry32` closure after `n` increments,
starting from `seed >>> 0`. -/
def mulberryState (seed : Nat) : Nat → Nat
  | 0 => seed % M32
  | n + 1 => mulberryStep (mulberryState seed n)

/-- The seeded RNG stream: `mulberry32 seed n` is the raw 32-bit numerator of the
(n+1)-st value produced by the closure returned by `mulberry32(seed)` in the source. -/
def mulberry32 (seed : Nat) (n : Nat) : Nat := mulberryOut (mulberryState seed (n + 1))

/-- An RNG stream is valid when every raw output is a 32-bit value, i.e. the
float `rng()` lies in `[0,1)`.  Every stream the source can build satisfies this. -/
def ValidStream (rng : Nat → Nat) : Prop := ∀ i, rng i < M32

/-- One committed placement of the tiler: shape kind (`piece`), the rotation's
offset list, the anchor `(ox, oy)`, the optional color override used by the
1×1 fallback, and the placement score. -/
structure Placement where
  piece : String
  shape : List (Int × Int)
  ox : Int
  oy : Int
  color : Option String
  score : Nat
deriving DecidableEq

/-- The static tetromino catalog `PIECES`: four rotations per kind,
each a list of `(dx, dy)` offsets, copied verbatim from the source. -/
def PIECES (p : String) : List (List (Int × Int)) :=
  match p with
  | "I" => [[(0,1),(1,1),(2,1),(3,1)],
            [(2,0),(2,1),(2,2),(2,3)],
            [(0,2),(1,2),(2,2),(3,2)],
            [(1,0),(1,1),(1,2),(1,3)]]
  | "O" => [[(1,0),(2,0),(1,1),(2,1)],
            [(1,0),(2,0),(1,1),(2,1)],
            [(1,0),(2,0),(1,1),(2,1)],
            [(1,0),(2,0),(1,1),(2,1)]]
  | "T" => [[(1,0),(0,1),(1,1),(2,1)],
            [(1,0),(1,1),(2,1),(1,2)],
            [(0,1),(1,1),(2,1),(1,2)],
            [(1,0),(0,1),(1,1),(1,2)]]
  | "S" => [[(1,0),(2,0),(0,1),(1,1)],
            [(1,0),(1,1),(2,1),(2,2)],
            [(1,1),(2,1),(0,2),(1,2)],
            [(0,0),(0,1),(1,1),(1,2)]]
  | "Z" => [[(0,0),(1,0),(1,1),(2,1)],
            [(2,0),(1,1),(2,1),(1,2)],
            [(0,1),(1,1),(1,2),(2,2)],
            [(1,0),(0,1),(1,1),(0,2)]]
  | "J" => [[(0,0),(0,1),(1,1),(2,1)],
            [(1,0),(2,0),(1,1),(1,2)],
            [(0,1),(1,1),(2,1),(2,2)],
            [(1,0),(1,1),(0,2),(1,2)]]
  | "L" => [[(2,0),(0,1),(1,1),(2,1)],
            [(1,0),(1,1),(1,2),(2,2)],
            [(0,1),(1,1),(2,1),(0,2)],
            [(0,0),(1,0),(1,1),(1,2)]]
  | _ => []

/-- The catalog enumeration order `PIECE_ORDER`. -/
def PIECE_ORDER : List String := ["I", "O", "T", "S", "Z", "J", "L"]

/-- GitHub-like intensity buckets `bucketLevel` (0..4). -/
def bucketLevel (count : Nat) : Nat :=
  if count ≤ 0 then 0
  else if count ≤ 2 then 1
  else if count ≤ 5 then 2
  else if count ≤ 9 then 3
  else 4

/-- The heat-level palette `LEVEL_COLOR`. -/
def LEVEL_COLOR (lvl : Nat) : String :=
  match lvl with
  | 0 => "#0b1224"
  | 1 => "#0e4429"
  | 2 => "#006d32"
  | 3 => "#26a641"
  | 4 => "#39d353"
  | _ => ""

/-- Read `grid[y][x]`, defaulting to 0 outside the stored rows (the source
only reads in-bounds cells; the default mirrors missing data being 0). -/
def gridAt (grid : List (List Nat)) (y x : Nat) : Nat := (grid.getD y []).getD x 0

/-- Read `mask[y][x]`, defaulting to false outside the stored rows. -/
def cellAt (mask : List (List Bool)) (y x : Nat) : Bool := (mask.getD y []).getD x false

/-- `makeMaskFromGrid`: the fresh coverage mask, true exactly where `grid[y][x] > 0`. -/
def makeMaskFromGrid (W H : Nat) (grid : List (List Nat)) : List (List Bool) :=
  (List.range H).map fun y => (List.range W).map fun x => decide (0 < gridAt grid y x)

/-- `canPlaceOnMask`: every absolute cell of `shape` anchored at `(ox, oy)` must be
in `[0,W) × [0,H)` and still true in the mask. -/
def canPlaceOnMask (W H : Nat) (mask : List (List Bool)) (shape : List (Int × Int))
    (ox oy : Int) : Bool :=
  shape.all fun d =>
    decide (0 ≤ ox + d.1) && decide (ox + d.1 < (W : Int)) &&
    decide (0 ≤ oy + d.2) && decide (oy + d.2 < (H : Int)) &&
    cellAt mask (oy + d.2).toNat (ox + d.1).toNat

/-- Set `mask[y][x] = false` (no-op outside the stored rows, which the source never hits). -/
def setCellFalse (mask : List (List Bool)) (y x : Nat) : List (List Bool) :=
  mask.set y ((mask.getD y []).set x false)

/-- `applyPlace`: mark every cell of the placed shape as consumed. -/
def applyPlace (mask : List (List Bool)) (shape : List (Int × Int))
    (ox oy : Int) : List (List Bool) :=
  shape.foldl (fun m d => setCellFalse m (oy + d.2).toNat (ox + d.1).toNat) mask

/-- The `xs` array of `chooseNextCell`: all x with `mask[y][x]` true, in increasing order. -/
def trueXs (W : Nat) (mask : List (List Bool)) (y : Nat) : List Nat :=
  (List.range W).filter fun x => cellAt mask y x

/-- The row scan of `chooseNextCell`: `for (let y = H-1; y >= 0; y--)`, returning the
first (i.e. bottom-most) row index with a nonempty `xs`, together with that `xs`.
The argument `n` is the number of rows still to scan; the scan starts at `n = H`. -/
def scanRows (W : Nat) (mask : List (List Bool)) : Nat → Option (Nat × List Nat)
  | 0 => none
  | n + 1 =>
    let xs := trueXs W mask n
    if xs.isEmpty then scanRows W mask n else some (n, xs)

/-- `chooseNextCell`: bottom-most row with an uncovered occupied cell, then a
uniformly random element of its `xs` via `xs[Math.floor(rng() * xs.length)]`;
`r` is the raw 32-bit numerator of the consumed RNG value. -/
def chooseNextCell (W H : Nat) (mask : List (List Bool)) (r : Nat) : Option (Nat × Nat) :=
  match scanRows W mask H with
  | none => none
  | some (y, xs) => some (xs.getD (r * xs.length / M32) 0, y)

/-- `placementScore`: sum of `bucketLevel(grid[oy+dy][ox+dx])` over the shape. -/
def placementScore (grid : List (List Nat)) (shape : List (Int × Int))
    (ox oy : Int) : Nat :=
  shape.foldl (fun s d => s + bucketLevel (gridAt grid (oy + d.2).toNat (ox + d.1).toNat)) 0

/-- The running-best update of the shape search: keep the incumbent unless the new
candidate's score is strictly greater (`if (!best || sc > best.score)`). -/
def stepBest (best : Option Placement) (c : Placement) : Option Placement :=
  match best with
  | none => some c
  | some b => if c.score > b.score then some c else some b

/-- The shape search of one packer iteration: for every piece in catalog order,
every rotation 0..3, every anchor offset of that rotation aligned on the selected
cell `(cx, cy)`, keep the first-found best-scoring legal candidate. -/
def bestForCell (W H : Nat) (grid : List (List Nat)) (mask : List (List Bool))
    (cx cy : Nat) : Option Placement :=
  PIECE_ORDER.foldl (fun best p =>
    (List.range 4).foldl (fun best rot =>
      let shape := (PIECES p).getD rot []
      shape.foldl (fun best d =>
        let ox := (cx : Int) - d.1
        let oy := (cy : Int) - d.2
        if canPlaceOnMask W H mask shape ox oy then
          stepBest best ⟨p, shape, ox, oy, none, placementScore grid shape ox oy⟩
        else best) best) best) none

/-- The legal candidate list of one packer iteration, in exactly the enumeration
order of `bestForCell` (catalog order, then rotation 0..3, then anchor offset). -/
def candList (W H : Nat) (grid : List (List Nat)) (mask : List (List Bool))
    (cx cy : Nat) : List Placement :=
  PIECE_ORDER.flatMap fun p =>
    (List.range 4).flatMap fun rot =>
      let shape := (PIECES p).getD rot []
      shape.filterMap fun d =>
        let ox := (cx : Int) - d.1
        let oy := (cy : Int) - d.2
        if canPlaceOnMask W H mask shape ox oy then
          some ⟨p, shape, ox, oy, none, placementScore grid shape ox oy⟩
        else none

/-- First-found maximum of a candidate list under `stepBest`. -/
def firstMax (l : List Placement) : Option Placement := l.foldl stepBest none

/-- The placement committed for a selected cell: the best-scoring legal tetromino
candidate, or the 1×1 fallback on the cell itself (`piece: "P"`, shape `[[0,0]]`,
color `LEVEL_COLOR[lvl]`, score `lvl`). -/
def commitPl (W H : Nat) (grid : List (List Nat)) (mask : List (List Bool))
    (cx cy : Nat) : Placement :=
  match bestForCell W H grid mask cx cy with
  | some b => b
  | none =>
    ⟨"P", [(0, 0)], (cx : Int), (cy : Int),
      some (LEVEL_COLOR (bucketLevel (gridAt grid cy cx))),
      bucketLevel (gridAt grid cy cx)⟩

/-- The packing loop of `tileToPlacements`.  `fuel` is the remaining iteration
budget of the `while (safety++ < 4000)` guard, `i` the RNG consumption counter,
`mask` the coverage mask.  Returns the placements, the final mask and the final
RNG counter. -/
def tileLoop (W H : Nat) (grid : List (List Nat)) (rng : Nat → Nat) :
    Nat → Nat → List (List Bool) → List Placement × List (List Bool) × Nat
  | 0, i, mask => ([], mask, i)
  | fuel + 1, i, mask =>
    match chooseNextCell W H mask (rng i) with
    | none => ([], mask, i)
    | some (cx, cy) =>
      let pc := commitPl W H grid mask cx cy
      let rest := tileLoop W H grid rng fuel (i + 1) (applyPlace mask pc.shape pc.ox pc.oy)
      (pc :: rest.1, rest.2)

/-- `tileToPlacements`: build a fresh mask from the grid and run the greedy
packing loop with the hard safety bound of 4000 iterations. -/
def tileToPlacements (W H : Nat) (grid : List (List Nat)) (rng : Nat → Nat) :
    List Placement :=
  (tileLoop W H grid rng 4000 0 (makeMaskFromGrid W H grid)).1

/-- The set (as a list) of absolute cells covered by a placement. -/
def coveredCells (pl : Placement) : List (Int × Int) :=
  pl.shape.map fun d => (pl.ox + d.1, pl.oy + d.2)

/-- Number of still-uncovered occupied cells of a mask. -/
def occCount (mask : List (List Bool)) : Nat :=
  (mask.map fun row => row.count true).sum

/-- A cell (given with `Int` coordinates) is occupied-and-uncovered in the mask. -/
def cellTrueZ (mask : List (List Bool)) (c : Int × Int) : Prop :=
  0 ≤ c.1 ∧ 0 ≤ c.2 ∧ cellAt mask c.2.toNat c.1.toNat = true

/-- All true cells of the mask lie inside `[0,W) × [0,H)` (holds for every mask the
source builds, and is preserved by `applyPlace`). -/
def InBoundsMask (W H : Nat) (mask : List (List Bool)) : Prop :=
  ∀ y x, cellAt mask y x = true → y < H ∧ x < W

/-- Timing constant `stepDur = 0.18`. -/
def stepDur : ℚ := 18 / 100

/-- Timing constant `runDur = 10`. -/
def runDur : ℚ := 10

/-- Number of independent animation runs (`N_RUNS`). -/
def N_RUNS : Nat := 10

/-- The per-run step spacing:
`placements.length > 0 ? Math.min(stepDur, (runDur - 0.5) / placements.length) : stepDur`. -/
def localStep (n : Nat) : ℚ :=
  if 0 < n then min stepDur ((runDur - 1/2) / n) else stepDur

/-- Begin time of the i-th placement of run `r` when the run has `n` placements:
`begin = baseT + i * localStep` with `baseT = r * runDur`. -/
def beginTime (r i n : Nat) : ℚ := r * runDur + i * localStep n

/-- The seed of run `r`: `(seed + r * 10007) >>> 0`. -/
def runSeed (seed r : Nat) : Nat := (seed + r * 10007) % M32

/-- The placements of run `r` of the overlay loop: a fresh `mulberry32` RNG from
the run seed feeding one `tileToPlacements` call on the (unchanged) grid. -/
def runPlacements (W H : Nat) (grid : List (List Nat)) (seed r : Nat) : List Placement :=
  tileToPlacements W H grid (mulberry32 (runSeed seed r))

/-- Begin time of the i-th placement of run `r` as scheduled by the overlay loop. -/
def runBegin (W H : Nat) (grid : List (List Nat)) (seed r i : Nat) : ℚ :=
  beginTime r i (runPlacements W H grid seed r).length

/-- The outputs of all `N_RUNS` runs of the overlay loop. -/
def allRunPlacements (W H : Nat) (grid : List (List Nat)) (seed : Nat) :
    List (List Placement) :=
  (List.range N_RUNS).map fun r => runPlacements W H grid seed r

/-- The overlay loop with the grid threaded explicitly as state: each run reads the
grid and appends its placements; the grid component is never written. -/
def renderRunsState (W H : Nat) (grid : List (List Nat)) (seed : Nat) :
    List (List Nat) × List (List Placement) :=
  (List.range N_RUNS).foldl
    (fun st r => (st.1, st.2 ++ [tileToPlacements W H st.1 (mulberry32 (runSeed seed r))]))
    (grid, [])

/-- One day record of the contribution calendar input. -/
structure DayRec where
  date : Option String
  contributionCount : Nat
deriving DecidableEq

/-- One week record of the contribution calendar input. -/
structure WeekRec where
  contributionDays : List DayRec
deriving DecidableEq

/-- The column count of `buildHeatmap`: `W = Math.min(53, weeks.length)`. -/
def buildHeatmapW (weeks : List WeekRec) : Nat := min 53 weeks.length

/-- The grid built by `buildHeatmap`: 7 rows, `W` columns, column x taken from the
x-th week of the trailing `W`-week slice, `grid[y][x] = days?.[y]?.contributionCount ?? 0`. -/
def buildHeatmapGrid (weeks : List WeekRec) : List (List Nat) :=
  let W := buildHeatmapW weeks
  let slice := weeks.drop (weeks.length - W)
  (List.range 7).map fun y => (List.range W).map fun x =>
    ((slice.getD x ⟨[]⟩).contributionDays.getD y ⟨none, 0⟩).contributionCount

/-- The all-zeros RNG stream, used as a concrete valid stream in closed instances. -/
def zeros : Nat → Nat := fun _ => 0

/-- The 1-column grid of the isolated-cells scenario: counts 1 at even rows,
0 at odd rows, `2*m - 1` rows in total. -/
def altGrid (m : Nat) : List (List Nat) :=
  (List.range (2 * m - 1)).map fun y => [if y % 2 = 0 then 1 else 0]

/-- The coverage mask of `altGrid m` after the bottom `k` occupied cells have been
consumed: cell `(0, y)` is true iff `y` is even and `y + 2*k < 2*m - 1`. -/
def maskState (m k : Nat) : List (List Bool) :=
  (List.range (2 * m - 1)).map fun y => [decide (y % 2 = 0 ∧ y + 2 * k < 2 * m - 1)]

/-- The 1×1 fallback placement committed at step `k` of the packer run on `altGrid m`. -/
def fallbackPl (m k : Nat) : Placement :=
  ⟨"P", [(0, 0)], 0, ((2 * m - 2 * k - 2 : Nat) : Int), some (LEVEL_COLOR 1), 1⟩

/-- No two (vertically or horizontally) adjacent cells of the mask are both true.
Grids of isolated occupied cells have such masks, and no connected 4-cell shape
can ever be legally placed on them. -/
def NoAdj (mask : List (List Bool)) : Prop :=
  ∀ y x, cellAt mask y x = true →
    cellAt mask (y + 1) x = false ∧ cellAt mask y (x + 1) = false

/-- Bounded boolean check of `NoAdj` (decidable on concrete masks). -/
def noAdjB (mask : List (List Bool)) : Bool :=
  (List.range mask.length).all fun y =>
    (List.range (mask.getD y []).length).all fun x =>
      !(cellAt mask y x) || (!(cellAt mask (y + 1) x) && !(cellAt mask y (x + 1)))

/-- The shape contains two offsets that are vertically or horizontally adjacent;
true for every rotation of every catalog tetromino (they are edge-connected). -/
def hasAdjPairB (shape : List (Int × Int)) : Bool :=
  shape.any fun d1 => shape.any fun d2 =>
    decide ((d1.1 = d2.1 ∧ d2.2 = d1.2 + 1) ∨ (d1.2 = d2.2 ∧ d2.1 = d1.1 + 1))

/-! ### Basic mask lemmas -/

lemma occCount_cons (r : List Bool) (t : List (List Bool)) :
    occCount (r :: t) = r.count true + occCount t := by
  simp [occCount]

lemma cellAt_nil (y x : Nat) : cellAt [] y x = false := by
  simp [cellAt]

lemma cellAt_cons (r : List Bool) (t : List (List Bool)) (y x : Nat) :
    cellAt (r :: t) y x = match y with | 0 => r.getD x false | y + 1 => cellAt t y x := by
  cases y <;> simp [cellAt]

lemma setCellFalse_nil (y x : Nat) : setCellFalse [] y x = [] := by
  simp [setCellFalse]

lemma setCellFalse_cons_zero (r : List Bool) (t : List (List Bool)) (x : Nat) :
    setCellFalse (r :: t) 0 x = (r.set x false) :: t := by
  simp [setCellFalse]

lemma setCellFalse_cons_succ (r : List Bool) (t : List (List Bool)) (y x : Nat) :
    setCellFalse (r :: t) (y + 1) x = r :: setCellFalse t y x := by
  simp [setCellFalse, List.set]

lemma getD_set_false (row : List Bool) (x x' : Nat) :
    (row.set x false).getD x' false = if x = x' then false else row.getD x' false := by
  simp only [List.getD_eq_getElem?_getD, List.getElem?_set]
  by_cases h : x = x'
  · subst h
    by_cases hl : x < row.length <;> simp [hl]
  · simp [h]

lemma cellAt_setCellFalse (mask : List (List Bool)) (y x y' x' : Nat) :
    cellAt (setCellFalse mask y x) y' x' =
      if y = y' ∧ x = x' then false else cellAt mask y' x' := by
  induction mask generalizing y y' with
  | nil => simp [setCellFalse_nil, cellAt_nil]
  | cons r t ih =>
    cases y with
    | zero =>
      cases y' with
      | zero =>
        rw [setCellFalse_cons_zero]
        simp only [cellAt_cons]
        rw [getD_set_false]
        by_cases hx : x = x' <;> simp [hx]
      | succ y' =>
        rw [setCellFalse_cons_zero]
        simp [cellAt_cons]
    | succ y =>
      cases y' with
      | zero =>
        rw [setCellFalse_cons_succ]
        simp [cellAt_cons]
      | succ y' =>
        rw [setCellFalse_cons_succ]
        simp only [cellAt_cons]
        rw [ih]
        by_cases hy : y = y' <;> simp [hy]

lemma cellAt_applyPlace (mask : List (List Bool)) (shape : List (Int × Int))
    (ox oy : Int) (y x : Nat) :
    cellAt (applyPlace mask shape ox oy) y x =
      (cellAt mask y x &&
        !(shape.any fun d => decide ((oy + d.2).toNat = y ∧ (ox + d.1).toNat = x))) := by
  induction shape generalizing mask with
  | nil => simp [applyPlace]
  | cons d t ih =>
    have hstep : applyPlace mask (d :: t) ox oy =
        applyPlace (setCellFalse mask (oy + d.2).toNat (ox + d.1).toNat) t ox oy := by
      simp [applyPlace]
    rw [hstep, ih, cellAt_setCellFalse]
    by_cases h : (oy + d.2).toNat = y ∧ (ox + d.1).toNat = x
    · simp [h]
    · have hd : decide ((oy + d.2).toNat = y ∧ (ox + d.1).toNat = x) = false :=
        decide_eq_false h
      simp only [if_neg h, List.any_cons, hd, Bool.false_or]

lemma cellAt_applyPlace_mono {mask : List (List Bool)} {shape : List (Int × Int)}
    {ox oy : Int} {y x : Nat} (h : cellAt (applyPlace mask shape ox oy) y x = true) :
    cellAt mask y x = true := by
  rw [cellAt_applyPlace] at h
  exact (Bool.and_eq_true_iff.mp h).1

/-! ### Soundness of the legality check and of cell selection -/

lemma canPlace_sound {W H : Nat} {mask : List (List Bool)} {shape : List (Int × Int)}
    {ox oy : Int} (h : canPlaceOnMask W H mask shape ox oy = true) :
    ∀ d ∈ shape, 0 ≤ ox + d.1 ∧ ox + d.1 < (W : Int) ∧ 0 ≤ oy + d.2 ∧ oy + d.2 < (H : Int) ∧
      cellAt mask (oy + d.2).toNat (ox + d.1).toNat = true := by
  intro d hd
  simp only [canPlaceOnMask, List.all_eq_true] at h
  have := h d hd
  simp only [Bool.and_eq_true, decide_eq_true_eq] at this
  exact ⟨this.1.1.1.1, this.1.1.1.2, this.1.1.2, this.1.2, this.2⟩

lemma mem_trueXs {W : Nat} {mask : List (List Bool)} {y x : Nat} :
    x ∈ trueXs W mask y ↔ x < W ∧ cellAt mask y x = true := by
  simp [trueXs, List.mem_filter, List.mem_range]

lemma scanRows_some_spec {W : Nat} {mask : List (List Bool)} :
    ∀ {n y : Nat} {xs : List Nat}, scanRows W mask n = some (y, xs) →
      y < n ∧ xs = trueXs W mask y ∧ xs ≠ [] ∧
        ∀ y', y < y' → y' < n → trueXs W mask y' = [] := by
  intro n
  induction n with
  | zero => intro y xs h; simp [scanRows] at h
  | succ m ih =>
    intro y xs h
    simp only [scanRows] at h
    by_cases he : (trueXs W mask m).isEmpty
    · rw [if_pos he] at h
      obtain ⟨h1, h2, h3, h4⟩ := ih h
      refine ⟨by omega, h2, h3, ?_⟩
      intro y' hy1 hy2
      rcases Nat.lt_succ_iff_lt_or_eq.mp hy2 with h5 | h5
      · exact h4 y' hy1 h5
      · subst h5; exact List.isEmpty_iff.mp he
    · rw [if_neg he] at h
      injection h with h'
      injection h' with hy hxs
      subst hy; subst hxs
      refine ⟨Nat.lt_succ_self _, rfl, fun hc => he (by simp [hc]), ?_⟩
      intro y' hy1 hy2; omega

lemma scanRows_none_spec {W : Nat} {mask : List (List Bool)} :
    ∀ {n : Nat}, scanRows W mask n = none → ∀ y < n, trueXs W mask y = [] := by
  intro n
  induction n with
  | zero => intro _ y hy; omega
  | succ m ih =>
    intro h y hy
    simp only [scanRows] at h
    by_cases he : (trueXs W mask m).isEmpty
    · rw [if_pos he] at h
      rcases Nat.lt_succ_iff_lt_or_eq.mp hy with h5 | h5
      · exact ih h y h5
      · subst h5; exact List.isEmpty_iff.mp he
    · rw [if_neg he] at h; exact absurd h (by simp)

lemma scanRows_intro {W : Nat} {mask : List (List Bool)} {y : Nat}
    (hne : trueXs W mask y ≠ []) :
    ∀ {n : Nat}, y < n → (∀ y', y < y' → y' < n → trueXs W mask y' = []) →
      scanRows W mask n = some (y, trueXs W mask y) := by
  intro n
  induction n with
  | zero => omega
  | succ m ih =>
    intro hy hall
    simp only [scanRows]
    by_cases hm : y = m
    · subst hm
      rw [if_neg (by simp [hne])]
    · have h1 : trueXs W mask m = [] := hall m (by omega) (by omega)
      rw [if_pos (by simp [h1])]
      exact ih (by omega) (fun y' a b => hall y' a (by omega))

lemma chooseNextCell_some_spec {W H : Nat} {mask : List (List Bool)} {r cx cy : Nat}
    (hr : r < M32) (h : chooseNextCell W H mask r = some (cx, cy)) :
    cellAt mask cy cx = true ∧ cy < H ∧ cx < W := by
  unfold chooseNextCell at h
  cases hscan : scanRows W mask H with
  | none => rw [hscan] at h; exact absurd h (by simp)
  | some p =>
    obtain ⟨y, xs⟩ := p
    rw [hscan] at h
    injection h with h'
    injection h' with hcx hcy
    obtain ⟨hyH, hxs, hne, _⟩ := scanRows_some_spec hscan
    subst hxs
    have hlen : 0 < (trueXs W mask y).length := List.length_pos.mpr hne
    have hidx : r * (trueXs W mask y).length / M32 < (trueXs W mask y).length := by
      rw [Nat.div_lt_iff_lt_mul (by norm_num [M32])]
      calc r * (trueXs W mask y).length < M32 * (trueXs W mask y).length :=
            (Nat.mul_lt_mul_right hlen).mpr hr
        _ = (trueXs W mask y).length * M32 := Nat.mul_comm _ _
    have hmem : (trueXs W mask y).getD (r * (trueXs W mask y).length / M32) 0 ∈
        trueXs W mask y := by
      rw [List.getD_eq_getElem?_getD, List.getElem?_eq_getElem hidx]
      exact List.getElem_mem hidx
    obtain ⟨hxW, hcell⟩ := mem_trueXs.mp hmem
    subst hcx; subst hcy
    exact ⟨hcell, hyH, hxW⟩

lemma chooseNextCell_none_spec {W H : Nat} {mask : List (List Bool)} {r : Nat}
    (h : chooseNextCell W H mask r = none) (hb : InBoundsMask W H mask) :
    ∀ y x, cellAt mask y x = false := by
  intro y x
  by_contra hc
  have hcell : cellAt mask y x = true := by
    cases hcx : cellAt mask y x
    · exact absurd hcx hc
    · rfl
  obtain ⟨hyH, hxW⟩ := hb y x hcell
  unfold chooseNextCell at h
  cases hscan : scanRows W mask H with
  | none =>
    have := scanRows_none_spec hscan y hyH
    have hmem : x ∈ trueXs W mask y := mem_trueXs.mpr ⟨hxW, hcell⟩
    rw [this] at hmem
    exact absurd hmem (List.not_mem_nil x)
  | some p => rw [hscan] at h; exact absurd h (by simp)

/-! ### Occupied-cell counting -/

lemma count_set_false_le (row : List Bool) (x : Nat) :
    (row.set x false).count true ≤ row.count true := by
  induction row generalizing x with
  | nil => simp
  | cons b t ih =>
    cases x with
    | zero => cases b <;> simp [List.count_cons]
    | succ x =>
      simp only [List.set]
      simp only [List.count_cons]
      have := ih x
      omega

lemma count_set_false_lt {row : List Bool} {x : Nat} (h : row.getD x false = true) :
    (row.set x false).count true < row.count true := by
  induction row generalizing x with
  | nil => simp [List.getD] at h
  | cons b t ih =>
    cases x with
    | zero =>
      simp only [List.getD_cons_zero] at h
      subst h
      simp [List.count_cons]
    | succ x =>
      simp only [List.getD_cons_succ] at h
      simp only [List.set, List.count_cons]
      have := ih h
      omega

lemma occ_setCellFalse_le (mask : List (List Bool)) (y x : Nat) :
    occCount (setCellFalse mask y x) ≤ occCount mask := by
  induction mask generalizing y with
  | nil => simp [setCellFalse_nil]
  | cons r t ih =>
    cases y with
    | zero =>
      rw [setCellFalse_cons_zero, occCount_cons, occCount_cons]
      have := count_set_false_le r x
      omega
    | succ y =>
      rw [setCellFalse_cons_succ, occCount_cons, occCount_cons]
      have := ih y
      omega

lemma occ_setCellFalse_lt {mask : List (List Bool)} {y x : Nat}
    (h : cellAt mask y x = true) :
    occCount (setCellFalse mask y x) < occCount mask := by
  induction mask generalizing y with
  | nil => rw [cellAt_nil] at h; exact absurd h (by simp)
  | cons r t ih =>
    cases y with
    | zero =>
      rw [cellAt_cons] at h
      rw [setCellFalse_cons_zero, occCount_cons, occCount_cons]
      have := count_set_false_lt h
      omega
    | succ y =>
      rw [cellAt_cons] at h
      rw [setCellFalse_cons_succ, occCount_cons, occCount_cons]
      have := ih h
      omega

lemma occ_applyPlace_le (mask : List (List Bool)) (shape : List (Int × Int))
    (ox oy : Int) : occCount (applyPlace mask shape ox oy) ≤ occCount mask := by
  induction shape generalizing mask with
  | nil => simp [applyPlace]
  | cons d t ih =>
    have hstep : applyPlace mask (d :: t) ox oy =
        applyPlace (setCellFalse mask (oy + d.2).toNat (ox + d.1).toNat) t ox oy := by
      simp [applyPlace]
    rw [hstep]
    exact le_trans (ih _) (occ_setCellFalse_le _ _ _)

lemma occ_applyPlace_lt {mask : List (List Bool)} {shape : List (Int × Int)}
    {ox oy : Int} {cx cy : Nat} (hc : cellAt mask cy cx = true)
    (hcov : ∃ d ∈ shape, (oy + d.2).toNat = cy ∧ (ox + d.1).toNat = cx) :
    occCount (applyPlace mask shape ox oy) < occCount mask := by
  induction shape generalizing mask with
  | nil => obtain ⟨d, hd, _⟩ := hcov; exact absurd hd (List.not_mem_nil d)
  | cons d t ih =>
    have hstep : applyPlace mask (d :: t) ox oy =
        applyPlace (setCellFalse mask (oy + d.2).toNat (ox + d.1).toNat) t ox oy := by
      simp [applyPlace]
    rw [hstep]
    by_cases hhit : (oy + d.2).toNat = cy ∧ (ox + d.1).toNat = cx
    · calc occCount (applyPlace (setCellFalse mask (oy + d.2).toNat (ox + d.1).toNat) t ox oy)
          ≤ occCount (setCellFalse mask (oy + d.2).toNat (ox + d.1).toNat) :=
            occ_applyPlace_le _ _ _ _
        _ < occCount mask := by
            rw [hhit.1, hhit.2]; exact occ_setCellFalse_lt hc
    · obtain ⟨d', hd', hd'2⟩ := hcov
      rcases List.mem_cons.mp hd' with h | h
      · subst h; exact absurd hd'2 hhit
      · have hc' : cellAt (setCellFalse mask (oy + d.2).toNat (ox + d.1).toNat) cy cx = true := by
          rw [cellAt_setCellFalse, if_neg hhit]; exact hc
        calc occCount (applyPlace (setCellFalse mask (oy + d.2).toNat (ox + d.1).toNat) t ox oy)
            < occCount (setCellFalse mask (oy + d.2).toNat (ox + d.1).toNat) :=
              ih hc' ⟨d', h, hd'2⟩
          _ ≤ occCount mask := occ_setCellFalse_le _ _ _

lemma occ_eq_zero {mask : List (List Bool)} (h : occCount mask = 0) :
    ∀ y x, cellAt mask y x = false := by
  induction mask with
  | nil => intro y x; exact cellAt_nil y x
  | cons r t ih =>
    rw [occCount_cons] at h
    intro y x
    cases y with
    | zero =>
      rw [cellAt_cons]
      have hr : r.count true = 0 := by omega
      have : true ∉ r := List.count_eq_zero.mp hr
      cases hg : r.getD x false
      · rfl
      · exfalso
        have hx : x < r.length := by
          by_contra hxl
          rw [List.getD_eq_getElem?_getD, List.getElem?_eq_none (by omega)] at hg
          simp at hg
        rw [List.getD_eq_getElem?_getD, List.getElem?_eq_getElem hx] at hg
        simp only [Option.getD_some] at hg
        exact this (hg ▸ List.getElem_mem hx)
    | succ y =>
      rw [cellAt_cons]
      exact ih (by omega) y x

lemma inBounds_applyPlace {W H : Nat} {mask : List (List Bool)}
    (hb : InBoundsMask W H mask) (shape : List (Int × Int)) (ox oy : Int) :
    InBoundsMask W H (applyPlace mask shape ox oy) := by
  intro y x h
  exact hb y x (cellAt_applyPlace_mono h)

/-! ### The shape search as a fold over the candidate list -/

lemma foldl_flatMap_eq {α β γ : Type} (l : List α) (g : α → List β) (f : γ → β → γ)
    (init : γ) :
    (l.flatMap g).foldl f init = l.foldl (fun acc a => (g a).foldl f acc) init := by
  induction l generalizing init with
  | nil => simp
  | cons a t ih => simp [List.flatMap_cons, List.foldl_append, ih]

lemma foldl_filterMap_eq {α β γ : Type} (l : List α) (f : α → Option β) (step : γ → β → γ)
    (init : γ) :
    (l.filterMap f).foldl step init =
      l.foldl (fun acc a => match f a with | some b => step acc b | none => acc) init := by
  induction l generalizing init with
  | nil => simp
  | cons a t ih =>
    cases h : f a <;> simp [List.filterMap_cons, h, ih]

lemma bestForCell_eq_firstMax (W H : Nat) (grid : List (List Nat))
    (mask : List (List Bool)) (cx cy : Nat) :
    bestForCell W H grid mask cx cy = firstMax (candList W H grid mask cx cy) := by
  unfold bestForCell candList firstMax
  rw [foldl_flatMap_eq]
  apply List.foldl_ext
  intro acc p hp
  rw [foldl_flatMap_eq]
  apply List.foldl_ext
  intro acc2 rot hrot
  rw [foldl_filterMap_eq]
  apply List.foldl_ext
  intro best d hd
  by_cases hc : canPlaceOnMask W H mask ((PIECES p)[rot]?.getD [])
      ((cx : Int) - d.1) ((cy : Int) - d.2) = true <;> simp [hc]

lemma foldl_stepBest_spec (l : List Placement) :
    ∀ b : Placement, ∃ c, l.foldl stepBest (some b) = some c ∧
      (∀ a ∈ l, a.score ≤ c.score) ∧ b.score ≤ c.score ∧
      (c = b ∨ ∃ l₁ l₂, l = l₁ ++ c :: l₂ ∧ b.score < c.score ∧
        ∀ a ∈ l₁, a.score < c.score) := by
  induction l with
  | nil => intro b; exact ⟨b, rfl, by simp, le_refl _, Or.inl rfl⟩
  | cons d t ih =>
    intro b
    by_cases hd : d.score > b.score
    · have hstep : List.foldl stepBest (some b) (d :: t) = List.foldl stepBest (some d) t := by
        simp [List.foldl_cons, stepBest, hd]
      obtain ⟨c, h1, h2, h3, h4⟩ := ih d
      refine ⟨c, by rw [hstep]; exact h1, ?_, by omega, ?_⟩
      · intro a ha
        rcases List.mem_cons.mp ha with h | h
        · subst h; exact h3
        · exact h2 a h
      · rcases h4 with h4 | ⟨l₁, l₂, he, hlt, hall⟩
        · subst h4; exact Or.inr ⟨[], t, rfl, by omega, by simp⟩
        · refine Or.inr ⟨d :: l₁, l₂, by rw [he]; rfl, by omega, ?_⟩
          intro a ha
          rcases List.mem_cons.mp ha with h | h
          · subst h; omega
          · exact hall a h
    · have hstep : List.foldl stepBest (some b) (d :: t) = List.foldl stepBest (some b) t := by
        simp [List.foldl_cons, stepBest, hd]
      obtain ⟨c, h1, h2, h3, h4⟩ := ih b
      refine ⟨c, by rw [hstep]; exact h1, ?_, h3, ?_⟩
      · intro a ha
        rcases List.mem_cons.mp ha with h | h
        · subst h; omega
        · exact h2 a h
      · rcases h4 with h4 | ⟨l₁, l₂, he, hlt, hall⟩
        · exact Or.inl h4
        · refine Or.inr ⟨d :: l₁, l₂, by rw [he]; rfl, hlt, ?_⟩
          intro a ha
          rcases List.mem_cons.mp ha with h | h
          · subst h; omega
          · exact hall a h

lemma firstMax_spec {l : List Placement} {b : Placement} (h : firstMax l = some b) :
    b ∈ l ∧ (∀ a ∈ l, a.score ≤ b.score) ∧
      ∃ l₁ l₂, l = l₁ ++ b :: l₂ ∧ ∀ a ∈ l₁, a.score < b.score := by
  cases l with
  | nil => simp [firstMax] at h
  | cons d t =>
    have hh : firstMax (d :: t) = t.foldl stepBest (some d) := by
      simp [firstMax, List.foldl_cons, stepBest]
    rw [hh] at h
    obtain ⟨c, h1, h2, h3, h4⟩ := foldl_stepBest_spec t d
    rw [h1] at h
    injection h with hbc
    subst hbc
    rcases h4 with h4 | ⟨l₁, l₂, he, hlt, hall⟩
    · subst h4
      refine ⟨List.mem_cons_self _ _, ?_, [], t, rfl, by simp⟩
      intro a ha
      rcases List.mem_cons.mp ha with h | h
      · subst h; exact le_refl _
      · exact h2 a h
    · subst he
      refine ⟨List.mem_cons_of_mem _ (by simp), ?_, d :: l₁, l₂, rfl, ?_⟩
      · intro a ha
        rcases List.mem_cons.mp ha with h | h
        · subst h; exact h3
        · exact h2 a h
      · intro a ha
        rcases List.mem_cons.mp ha with h | h
        · subst h; exact hlt
        · exact hall a h

lemma firstMax_eq_none {l : List Placement} (h : firstMax l = none) : l = [] := by
  cases l with
  | nil => rfl
  | cons d t =>
    exfalso
    have hh : firstMax (d :: t) = t.foldl stepBest (some d) := by
      simp [firstMax, List.foldl_cons, stepBest]
    rw [hh] at h
    obtain ⟨c, h1, _⟩ := foldl_stepBest_spec t d
    rw [h1] at h
    exact absurd h (by simp)

/-! ### Candidate-list soundness and completeness -/

lemma candList_mem_spec {W H : Nat} {grid : List (List Nat)} {mask : List (List Bool)}
    {cx cy : Nat} {c : Placement} (h : c ∈ candList W H grid mask cx cy) :
    c.piece ∈ PIECE_ORDER ∧ (∃ rot, rot < 4 ∧ c.shape = (PIECES c.piece).getD rot []) ∧
      canPlaceOnMask W H mask c.shape c.ox c.oy = true ∧
      c.score = placementScore grid c.shape c.ox c.oy ∧ c.color = none ∧
      ((cx : Int), (cy : Int)) ∈ coveredCells c := by
  simp only [candList, List.mem_flatMap, List.mem_range] at h
  obtain ⟨p, hp, rot, hrot, hf⟩ := h
  rw [List.mem_filterMap] at hf
  obtain ⟨d, hd, hif⟩ := hf
  by_cases hc : canPlaceOnMask W H mask ((PIECES p).getD rot [])
      ((cx : Int) - d.1) ((cy : Int) - d.2)
  · rw [if_pos hc] at hif
    injection hif with he
    subst he
    refine ⟨hp, ⟨rot, hrot, rfl⟩, hc, rfl, rfl, ?_⟩
    simp only [coveredCells, List.mem_map]
    exact ⟨d, hd, by simp⟩
  · rw [if_neg hc] at hif
    exact absurd hif (by simp)

lemma candList_complete {W H : Nat} {grid : List (List Nat)} {mask : List (List Bool)}
    {cx cy : Nat} {p : String} {rot : Nat} {ox oy : Int}
    (hp : p ∈ PIECE_ORDER) (hrot : rot < 4)
    (hc : canPlaceOnMask W H mask ((PIECES p).getD rot []) ox oy = true)
    (hcov : ∃ d ∈ (PIECES p).getD rot [], ox + d.1 = (cx : Int) ∧ oy + d.2 = (cy : Int)) :
    (⟨p, (PIECES p).getD rot [], ox, oy, none,
      placementScore grid ((PIECES p).getD rot []) ox oy⟩ : Placement) ∈
      candList W H grid mask cx cy := by
  obtain ⟨d, hd, h1, h2⟩ := hcov
  have hox : (cx : Int) - d.1 = ox := by omega
  have hoy : (cy : Int) - d.2 = oy := by omega
  simp only [candList, List.mem_flatMap, List.mem_range]
  refine ⟨p, hp, rot, hrot, List.mem_filterMap.mpr ⟨d, hd, ?_⟩⟩
  rw [hox, hoy, if_pos hc]

/-! ### Facts about the committed placement of one iteration -/

lemma commitPl_covers_sound {W H : Nat} {grid : List (List Nat)} {mask : List (List Bool)}
    {cx cy : Nat} (hc : cellAt mask cy cx = true) (hcy : cy < H) (hcx : cx < W) :
    ∀ c ∈ coveredCells (commitPl W H grid mask cx cy),
      cellTrueZ mask c ∧ 0 ≤ c.1 ∧ c.1 < (W : Int) ∧ 0 ≤ c.2 ∧ c.2 < (H : Int) := by
  intro c hcov
  unfold commitPl at hcov
  cases hb : bestForCell W H grid mask cx cy with
  | some b =>
    rw [hb] at hcov
    rw [bestForCell_eq_firstMax] at hb
    obtain ⟨hmem, -, -⟩ := firstMax_spec hb
    obtain ⟨-, -, hcan, -, -, -⟩ := candList_mem_spec hmem
    simp only [coveredCells, List.mem_map] at hcov
    obtain ⟨d, hd, he⟩ := hcov
    obtain ⟨h1, h2, h3, h4, h5⟩ := canPlace_sound hcan d hd
    subst he
    exact ⟨⟨h1, h3, h5⟩, h1, h2, h3, h4⟩
  | none =>
    rw [hb] at hcov
    simp only [coveredCells, List.mem_map, List.mem_singleton] at hcov
    obtain ⟨d, hd, he⟩ := hcov
    subst hd
    subst he
    simp only [add_zero]
    refine ⟨⟨by positivity, by positivity, ?_⟩, by positivity, ?_, by positivity, ?_⟩
    · simpa using hc
    · exact_mod_cast hcx
    · exact_mod_cast hcy

lemma commitPl_covers_cell {W H : Nat} {grid : List (List Nat)} {mask : List (List Bool)}
    {cx cy : Nat} :
    ((cx : Int), (cy : Int)) ∈ coveredCells (commitPl W H grid mask cx cy) := by
  unfold commitPl
  cases hb : bestForCell W H grid mask cx cy with
  | some b =>
    rw [bestForCell_eq_firstMax] at hb
    obtain ⟨hmem, -, -⟩ := firstMax_spec hb
    obtain ⟨-, -, -, -, -, hcov⟩ := candList_mem_spec hmem
    exact hcov
  | none =>
    simp [coveredCells]

lemma commitPl_score {W H : Nat} {grid : List (List Nat)} {mask : List (List Bool)}
    {cx cy : Nat} :
    (commitPl W H grid mask cx cy).score =
      placementScore grid (commitPl W H grid mask cx cy).shape
        (commitPl W H grid mask cx cy).ox (commitPl W H grid mask cx cy).oy := by
  unfold commitPl
  cases hb : bestForCell W H grid mask cx cy with
  | some b =>
    rw [bestForCell_eq_firstMax] at hb
    obtain ⟨hmem, -, -⟩ := firstMax_spec hb
    obtain ⟨-, -, -, hsc, -, -⟩ := candList_mem_spec hmem
    exact hsc
  | none =>
    simp only [placementScore, List.foldl_cons, List.foldl_nil]
    have h1 : ((cy : Int) + 0).toNat = cy := by omega
    have h2 : ((cx : Int) + 0).toNat = cx := by omega
    rw [h1, h2]
    omega

lemma commitPl_shape_ok {W H : Nat} {grid : List (List Nat)} {mask : List (List Bool)}
    {cx cy : Nat} :
    ((commitPl W H grid mask cx cy).piece ∈ PIECE_ORDER ∧
      ∃ rot, rot < 4 ∧
        (commitPl W H grid mask cx cy).shape =
          (PIECES (commitPl W H grid mask cx cy).piece).getD rot []) ∨
    ((commitPl W H grid mask cx cy).piece = "P" ∧
      (commitPl W H grid mask cx cy).shape = [(0, 0)]) := by
  unfold commitPl
  cases hb : bestForCell W H grid mask cx cy with
  | some b =>
    rw [bestForCell_eq_firstMax] at hb
    obtain ⟨hmem, -, -⟩ := firstMax_spec hb
    obtain ⟨hp, hsh, -, -, -, -⟩ := candList_mem_spec hmem
    exact Or.inl ⟨hp, hsh⟩
  | none =>
    exact Or.inr ⟨rfl, rfl⟩

/-! ### Characterization of the fresh mask -/

lemma getD_map_range {α : Type} (f : Nat → α) (n i : Nat) (d : α) :
    ((List.range n).map f).getD i d = if i < n then f i else d := by
  by_cases h : i < n
  · rw [List.getD_eq_getElem?_getD, List.getElem?_map, List.getElem?_range h]
    simp [h]
  · rw [List.getD_eq_getElem?_getD, List.getElem?_eq_none (by simpa using h)]
    simp [h]

lemma cellAt_makeMask (W H : Nat) (grid : List (List Nat)) (y x : Nat) :
    cellAt (makeMaskFromGrid W H grid) y x = decide (y < H ∧ x < W ∧ 0 < gridAt grid y x) := by
  unfold makeMaskFromGrid cellAt
  rw [getD_map_range]
  by_cases hy : y < H
  · rw [if_pos hy, getD_map_range]
    by_cases hx : x < W
    · rw [if_pos hx]
      simp [hy, hx]
    · rw [if_neg hx]
      simp [hy, hx]
  · rw [if_neg hy]
    simp [hy]

lemma inBounds_makeMask (W H : Nat) (grid : List (List Nat)) :
    InBoundsMask W H (makeMaskFromGrid W H grid) := by
  intro y x h
  rw [cellAt_makeMask] at h
  simp only [decide_eq_true_eq] at h
  exact ⟨h.1, h.2.1⟩

lemma sum_map_le {α : Type} (l : List α) (g : α → Nat) (c : Nat)
    (h : ∀ a ∈ l, g a ≤ c) : (l.map g).sum ≤ l.length * c := by
  induction l with
  | nil => simp
  | cons a t ih =>
    simp only [List.map_cons, List.sum_cons, List.length_cons]
    have h1 := h a (by simp)
    have h2 := ih fun b hb => h b (by simp [hb])
    calc g a + (t.map g).sum ≤ c + t.length * c := by omega
      _ = (t.length + 1) * c := by ring

lemma occ_makeMask_le (W H : Nat) (grid : List (List Nat)) :
    occCount (makeMaskFromGrid W H grid) ≤ H * W := by
  unfold occCount makeMaskFromGrid
  rw [List.map_map]
  have hb : ∀ y ∈ List.range H,
      ((fun row => row.count true) ∘ fun y => (List.range W).map
        fun x => decide (0 < gridAt grid y x)) y ≤ W := by
    intro y _
    simp only [Function.comp_apply]
    calc ((List.range W).map fun x => decide (0 < gridAt grid y x)).count true
        ≤ ((List.range W).map fun x => decide (0 < gridAt grid y x)).length :=
          List.count_le_length _ _
      _ = W := by simp
  have h := sum_map_le (List.range H) _ W hb
  simpa using h

/-! ### Mask evolution under a committed placement -/

lemma cellTrueZ_applyPlace_mono {mask : List (List Bool)} {shape : List (Int × Int)}
    {ox oy : Int} {c : Int × Int} (h : cellTrueZ (applyPlace mask shape ox oy) c) :
    cellTrueZ mask c := by
  obtain ⟨h1, h2, h3⟩ := h
  exact ⟨h1, h2, cellAt_applyPlace_mono h3⟩

lemma cellTrueZ_applyPlace_iff {mask : List (List Bool)} {shape : List (Int × Int)}
    {ox oy : Int} (hleg : ∀ d ∈ shape, 0 ≤ ox + d.1 ∧ 0 ≤ oy + d.2) (c : Int × Int) :
    cellTrueZ (applyPlace mask shape ox oy) c ↔
      cellTrueZ mask c ∧ ∀ d ∈ shape, (ox + d.1, oy + d.2) ≠ c := by
  unfold cellTrueZ
  rw [cellAt_applyPlace]
  constructor
  · rintro ⟨h1, h2, h3⟩
    rw [Bool.and_eq_true] at h3
    obtain ⟨h4, h5⟩ := h3
    refine ⟨⟨h1, h2, h4⟩, ?_⟩
    intro d hd hne
    rw [Bool.not_eq_eq_eq_not, Bool.not_true, List.any_eq_false] at h5
    have h6 := h5 d hd
    simp only [decide_eq_true_eq] at h6
    apply h6
    obtain ⟨he1, he2⟩ := Prod.mk.injEq _ _ _ _ ▸ hne
    constructor <;> omega
  · rintro ⟨⟨h1, h2, h4⟩, h5⟩
    refine ⟨h1, h2, ?_⟩
    rw [Bool.and_eq_true]
    refine ⟨h4, ?_⟩
    rw [Bool.not_eq_eq_eq_not, Bool.not_true, List.any_eq_false]
    intro d hd
    simp only [decide_eq_true_eq]
    rintro ⟨hc1, hc2⟩
    apply h5 d hd
    obtain ⟨hl1, hl2⟩ := hleg d hd
    have e1 : ox + d.1 = c.1 := by omega
    have e2 : oy + d.2 = c.2 := by omega
    rw [e1, e2]

lemma coveredCells_iff {pl : Placement} {c : Int × Int} :
    c ∈ coveredCells pl ↔ ∃ d ∈ pl.shape, (pl.ox + d.1, pl.oy + d.2) = c := by
  simp [coveredCells, List.mem_map]

lemma commitPl_legal {W H : Nat} {grid : List (List Nat)} {mask : List (List Bool)}
    {cx cy : Nat} (hc : cellAt mask cy cx = true) (hcy : cy < H) (hcx : cx < W) :
    ∀ d ∈ (commitPl W H grid mask cx cy).shape,
      0 ≤ (commitPl W H grid mask cx cy).ox + d.1 ∧
      0 ≤ (commitPl W H grid mask cx cy).oy + d.2 := by
  intro d hd
  have hcov : ((commitPl W H grid mask cx cy).ox + d.1,
      (commitPl W H grid mask cx cy).oy + d.2) ∈ coveredCells (commitPl W H grid mask cx cy) :=
    coveredCells_iff.mpr ⟨d, hd, rfl⟩
  have := commitPl_covers_sound hc hcy hcx _ hcov
  exact ⟨this.2.1, this.2.2.2.1⟩

/-! ### Loop invariants -/

lemma tileLoop_covered_sub {W H : Nat} {grid : List (List Nat)} {rng : Nat → Nat}
    (hv : ValidStream rng) :
    ∀ (fuel i : Nat) (mask : List (List Bool)),
      ∀ pl ∈ (tileLoop W H grid rng fuel i mask).1, ∀ c ∈ coveredCells pl,
        cellTrueZ mask c ∧ 0 ≤ c.1 ∧ c.1 < (W : Int) ∧ 0 ≤ c.2 ∧ c.2 < (H : Int) := by
  intro fuel
  induction fuel with
  | zero =>
    intro i mask pl hpl
    simp [tileLoop] at hpl
  | succ f ih =>
    intro i mask pl hpl c hc
    cases hch : chooseNextCell W H mask (rng i) with
    | none =>
      simp only [tileLoop, hch] at hpl
      exact absurd hpl (List.not_mem_nil pl)
    | some cell =>
      obtain ⟨cx, cy⟩ := cell
      simp only [tileLoop, hch] at hpl
      obtain ⟨hcell, hcy, hcx⟩ := chooseNextCell_some_spec (hv i) hch
      rcases List.mem_cons.mp hpl with h | h
      · subst h
        exact commitPl_covers_sound hcell hcy hcx c hc
      · have hrec := ih (i + 1) _ pl h c hc
        exact ⟨cellTrueZ_applyPlace_mono hrec.1, hrec.2⟩

lemma tileLoop_pairwise {W H : Nat} {grid : List (List Nat)} {rng : Nat → Nat}
    (hv : ValidStream rng) :
    ∀ (fuel i : Nat) (mask : List (List Bool)),
      List.Pairwise (fun a b => ∀ c ∈ coveredCells a, c ∉ coveredCells b)
        (tileLoop W H grid rng fuel i mask).1 := by
  intro fuel
  induction fuel with
  | zero => intro i mask; simp [tileLoop]
  | succ f ih =>
    intro i mask
    cases hch : chooseNextCell W H mask (rng i) with
    | none => simp [tileLoop, hch]
    | some cell =>
      obtain ⟨cx, cy⟩ := cell
      simp only [tileLoop, hch]
      obtain ⟨hcell, hcy, hcx⟩ := chooseNextCell_some_spec (hv i) hch
      refine List.Pairwise.cons ?_ (ih (i + 1) _)
      intro b hb c hcpc hcb
      have hleg := @commitPl_legal W H grid mask cx cy hcell hcy hcx
      have hkill : ¬ cellTrueZ
          (applyPlace mask (commitPl W H grid mask cx cy).shape
            (commitPl W H grid mask cx cy).ox (commitPl W H grid mask cx cy).oy) c := by
        rw [cellTrueZ_applyPlace_iff hleg]
        rintro ⟨-, hne⟩
        obtain ⟨d, hd, he⟩ := coveredCells_iff.mp hcpc
        exact hne d hd he
      exact hkill (tileLoop_covered_sub hv f (i + 1) _ b hb c hcb).1

lemma tileLoop_final_mask {W H : Nat} {grid : List (List Nat)} {rng : Nat → Nat}
    (hv : ValidStream rng) :
    ∀ (fuel i : Nat) (mask : List (List Bool)) (c : Int × Int),
      cellTrueZ (tileLoop W H grid rng fuel i mask).2.1 c ↔
        (cellTrueZ mask c ∧ ∀ pl ∈ (tileLoop W H grid rng fuel i mask).1,
          c ∉ coveredCells pl) := by
  intro fuel
  induction fuel with
  | zero => intro i mask c; simp [tileLoop]
  | succ f ih =>
    intro i mask c
    cases hch : chooseNextCell W H mask (rng i) with
    | none => simp [tileLoop, hch]
    | some cell =>
      obtain ⟨cx, cy⟩ := cell
      simp only [tileLoop, hch]
      obtain ⟨hcell, hcy, hcx⟩ := chooseNextCell_some_spec (hv i) hch
      have hleg := @commitPl_legal W H grid mask cx cy hcell hcy hcx
      rw [ih (i + 1) _ c, cellTrueZ_applyPlace_iff hleg c]
      constructor
      · rintro ⟨⟨h1, h2⟩, h3⟩
        refine ⟨h1, ?_⟩
        intro pl hpl
        rcases List.mem_cons.mp hpl with h | h
        · subst h
          intro hcontra
          obtain ⟨d, hd, he⟩ := coveredCells_iff.mp hcontra
          exact h2 d hd he
        · exact h3 pl h
      · rintro ⟨h1, h2⟩
        refine ⟨⟨h1, ?_⟩, ?_⟩
        · intro d hd he
          exact h2 _ (List.mem_cons_self _ _) (coveredCells_iff.mpr ⟨d, hd, he⟩)
        · intro pl hpl
          exact h2 pl (List.mem_cons_of_mem _ hpl)

lemma commitPl_occ_lt {W H : Nat} {grid : List (List Nat)} {mask : List (List Bool)}
    {cx cy : Nat} (hc : cellAt mask cy cx = true) :
    occCount (applyPlace mask (commitPl W H grid mask cx cy).shape
      (commitPl W H grid mask cx cy).ox (commitPl W H grid mask cx cy).oy) <
      occCount mask := by
  apply occ_applyPlace_lt hc
  obtain ⟨d, hd, he⟩ := coveredCells_iff.mp
    (@commitPl_covers_cell W H grid mask cx cy)
  obtain ⟨he1, he2⟩ := Prod.mk.injEq _ _ _ _ ▸ he
  exact ⟨d, hd, by omega, by omega⟩

lemma tileLoop_length {W H : Nat} {grid : List (List Nat)} {rng : Nat → Nat}
    (hv : ValidStream rng) :
    ∀ (fuel i : Nat) (mask : List (List Bool)),
      (tileLoop W H grid rng fuel i mask).1.length ≤ occCount mask := by
  intro fuel
  induction fuel with
  | zero => intro i mask; simp [tileLoop]
  | succ f ih =>
    intro i mask
    cases hch : chooseNextCell W H mask (rng i) with
    | none => simp [tileLoop, hch]
    | some cell =>
      obtain ⟨cx, cy⟩ := cell
      simp only [tileLoop, hch]
      obtain ⟨hcell, -, -⟩ := chooseNextCell_some_spec (hv i) hch
      have h1 := ih (i + 1) (applyPlace mask (commitPl W H grid mask cx cy).shape
        (commitPl W H grid mask cx cy).ox (commitPl W H grid mask cx cy).oy)
      have h2 := @commitPl_occ_lt W H grid mask cx cy hcell
      simp only [List.length_cons]
      omega

lemma tileLoop_complete {W H : Nat} {grid : List (List Nat)} {rng : Nat → Nat}
    (hv : ValidStream rng) :
    ∀ (fuel i : Nat) (mask : List (List Bool)), InBoundsMask W H mask →
      occCount mask ≤ fuel →
      ∀ y x, cellAt (tileLoop W H grid rng fuel i mask).2.1 y x = false := by
  intro fuel
  induction fuel with
  | zero =>
    intro i mask _ hocc y x
    simp only [tileLoop]
    exact occ_eq_zero (by omega) y x
  | succ f ih =>
    intro i mask hb hocc y x
    cases hch : chooseNextCell W H mask (rng i) with
    | none =>
      simp only [tileLoop, hch]
      exact chooseNextCell_none_spec hch hb y x
    | some cell =>
      obtain ⟨cx, cy⟩ := cell
      simp only [tileLoop, hch]
      obtain ⟨hcell, -, -⟩ := chooseNextCell_some_spec (hv i) hch
      have h2 := @commitPl_occ_lt W H grid mask cx cy hcell
      exact ih (i + 1) _ (inBounds_applyPlace hb _ _ _) (by omega) y x

lemma chooseNextCell_eq_none {W H : Nat} {mask : List (List Bool)} {r : Nat}
    (h : ∀ y x, cellAt mask y x = false) : chooseNextCell W H mask r = none := by
  unfold chooseNextCell
  cases hscan : scanRows W mask H with
  | none => rfl
  | some p =>
    exfalso
    obtain ⟨y, xs⟩ := p
    obtain ⟨-, hxs, hne, -⟩ := scanRows_some_spec hscan
    subst hxs
    obtain ⟨x, hx⟩ := List.exists_mem_of_ne_nil _ hne
    have := (mem_trueXs.mp hx).2
    rw [h y x] at this
    exact absurd this (by simp)

lemma tileLoop_fuel_indep {W H : Nat} {grid : List (List Nat)} {rng : Nat → Nat}
    (hv : ValidStream rng) :
    ∀ (f₁ f₂ i : Nat) (mask : List (List Bool)),
      occCount mask ≤ f₁ → occCount mask ≤ f₂ →
      tileLoop W H grid rng f₁ i mask = tileLoop W H grid rng f₂ i mask := by
  intro f₁
  induction f₁ with
  | zero =>
    intro f₂ i mask h1 h2
    have hz : ∀ y x, cellAt mask y x = false := occ_eq_zero (by omega)
    cases f₂ with
    | zero => rfl
    | succ f =>
      simp only [tileLoop, chooseNextCell_eq_none hz]
  | succ f ih =>
    intro f₂ i mask h1 h2
    cases f₂ with
    | zero =>
      have hz : ∀ y x, cellAt mask y x = false := occ_eq_zero (by omega)
      simp only [tileLoop, chooseNextCell_eq_none hz]
    | succ f' =>
      cases hch : chooseNextCell W H mask (rng i) with
      | none => simp only [tileLoop, hch]
      | some cell =>
        obtain ⟨cx, cy⟩ := cell
        simp only [tileLoop, hch]
        obtain ⟨hcell, -, -⟩ := chooseNextCell_some_spec (hv i) hch
        have hlt := @commitPl_occ_lt W H grid mask cx cy hcell
        rw [ih f' (i + 1) _ (by omega) (by omega)]

lemma tileLoop_shape_score {W H : Nat} {grid : List (List Nat)} {rng : Nat → Nat} :
    ∀ (fuel i : Nat) (mask : List (List Bool)),
      ∀ pl ∈ (tileLoop W H grid rng fuel i mask).1,
        ((pl.piece ∈ PIECE_ORDER ∧
          ∃ rot, rot < 4 ∧ pl.shape = (PIECES pl.piece).getD rot []) ∨
         (pl.piece = "P" ∧ pl.shape = [(0, 0)])) ∧
        pl.score = placementScore grid pl.shape pl.ox pl.oy := by
  intro fuel
  induction fuel with
  | zero => intro i mask pl hpl; simp [tileLoop] at hpl
  | succ f ih =>
    intro i mask pl hpl
    cases hch : chooseNextCell W H mask (rng i) with
    | none =>
      simp only [tileLoop, hch] at hpl
      exact absurd hpl (List.not_mem_nil pl)
    | some cell =>
      obtain ⟨cx, cy⟩ := cell
      simp only [tileLoop, hch] at hpl
      rcases List.mem_cons.mp hpl with h | h
      · subst h
        exact ⟨commitPl_shape_ok, commitPl_score⟩
      · exact ih (i + 1) _ pl h

/-! ### Small helper lemmas for the claim theorems -/

lemma validStream_zeros : ValidStream zeros := by
  intro i
  norm_num [zeros, M32]

lemma catalog_shape_length : ∀ p ∈ PIECE_ORDER, ∀ rot < 4,
    ((PIECES p).getD rot []).length = 4 := by decide

lemma foldl_add_eq {α : Type} (l : List α) (f : α → Nat) :
    ∀ a, l.foldl (fun s d => s + f d) a = a + (l.map f).sum := by
  induction l with
  | nil => intro a; simp
  | cons d t ih =>
    intro a
    simp only [List.foldl_cons, List.map_cons, List.sum_cons, ih]
    omega

lemma placementScore_eq_sum (grid : List (List Nat)) (shape : List (Int × Int))
    (ox oy : Int) :
    placementScore grid shape ox oy =
      (shape.map fun d => bucketLevel (gridAt grid (oy + d.2).toNat (ox + d.1).toNat)).sum := by
  unfold placementScore
  rw [foldl_add_eq, Nat.zero_add]

lemma le_sum_map {α : Type} (l : List α) (f : α → Nat) (h : ∀ a ∈ l, 1 ≤ f a) :
    l.length ≤ (l.map f).sum := by
  induction l with
  | nil => simp
  | cons d t ih =>
    simp only [List.length_cons, List.map_cons, List.sum_cons]
    have h1 := h d (by simp)
    have h2 := ih fun a ha => h a (by simp [ha])
    omega

lemma bucketLevel_pos {c : Nat} (h : 0 < c) : 1 ≤ bucketLevel c := by
  unfold bucketLevel
  split_ifs <;> omega

/-! ### Claim theorems -/

/-- C1: coverage partition — for every grid (with `H*W` within the safety bound,
which holds for every activity grid since `H = 7`, `W ≤ 53`) and every valid RNG
stream, a cell is covered by some placement of `tileToPlacements` iff it lies in
`[0,W) × [0,H)` and has count > 0; moreover the placements' covered-cell sets are
pairwise disjoint.  In particular no placement covers an originally-empty cell. -/
theorem C1_coverage_partition (W H : Nat) (grid : List (List Nat)) (rng : Nat → Nat)
    (hv : ValidStream rng) (hb : H * W ≤ 4000) :
    (∀ c : Int × Int,
      (∃ pl ∈ tileToPlacements W H grid rng, c ∈ coveredCells pl) ↔
        (0 ≤ c.1 ∧ c.1 < (W : Int) ∧ 0 ≤ c.2 ∧ c.2 < (H : Int) ∧
          0 < gridAt grid c.2.toNat c.1.toNat)) ∧
    List.Pairwise (fun a b => ∀ c ∈ coveredCells a, c ∉ coveredCells b)
      (tileToPlacements W H grid rng) := by
  constructor
  · intro c
    constructor
    · rintro ⟨pl, hpl, hc⟩
      have h := tileLoop_covered_sub hv 4000 0 (makeMaskFromGrid W H grid) pl hpl c hc
      obtain ⟨⟨h1, h2, h3⟩, h4, h5, h6, h7⟩ := h
      rw [cellAt_makeMask] at h3
      simp only [decide_eq_true_eq] at h3
      exact ⟨h4, h5, h6, h7, h3.2.2⟩
    · rintro ⟨h1, h2, h3, h4, h5⟩
      by_contra hno
      push_neg at hno
      have htrue : cellTrueZ (makeMaskFromGrid W H grid) c := by
        refine ⟨h1, h3, ?_⟩
        rw [cellAt_makeMask]
        simp only [decide_eq_true_eq]
        exact ⟨by omega, by omega, h5⟩
      have hfin : cellTrueZ (tileLoop W H grid rng 4000 0 (makeMaskFromGrid W H grid)).2.1 c := by
        rw [tileLoop_final_mask hv]
        exact ⟨htrue, fun pl hpl => hno pl hpl⟩
      have hocc : occCount (makeMaskFromGrid W H grid) ≤ 4000 :=
        le_trans (occ_makeMask_le W H grid) hb
      have hdone := @tileLoop_complete W H grid rng hv 4000 0 (makeMaskFromGrid W H grid)
        (inBounds_makeMask W H grid) hocc c.2.toNat c.1.toNat
      rw [hfin.2.2] at hdone
      exact absurd hdone (by simp)
  · exact tileLoop_pairwise hv 4000 0 _

theorem C1_coverage_partition_witness :
    ValidStream zeros ∧ 1 * 2 ≤ 4000 ∧
      ((∀ c : Int × Int,
        (∃ pl ∈ tileToPlacements 2 1 [[1, 2]] zeros, c ∈ coveredCells pl) ↔
          (0 ≤ c.1 ∧ c.1 < (2 : Int) ∧ 0 ≤ c.2 ∧ c.2 < (1 : Int) ∧
            0 < gridAt [[1, 2]] c.2.toNat c.1.toNat)) ∧
      List.Pairwise (fun a b => ∀ c ∈ coveredCells a, c ∉ coveredCells b)
        (tileToPlacements 2 1 [[1, 2]] zeros)) :=
  ⟨validStream_zeros, by norm_num,
    C1_coverage_partition 2 1 [[1, 2]] zeros validStream_zeros (by norm_num)⟩

/-- C2: determinism — `mulberry32` is a pure function of the 32-bit truncation of
its seed: two streams seeded with `>>> 0`-equal seeds agree at every index, and
two independent packer invocations, each with a fresh RNG from such seeds,
return identical placement sequences. -/
theorem C2_determinism (s₁ s₂ : Nat) (h : s₁ % M32 = s₂ % M32) :
    (∀ n, mulberry32 s₁ n = mulberry32 s₂ n) ∧
    ∀ (W H : Nat) (grid : List (List Nat)),
      tileToPlacements W H grid (mulberry32 s₁) = tileToPlacements W H grid (mulberry32 s₂) := by
  have hstate : ∀ n, mulberryState s₁ n = mulberryState s₂ n := by
    intro n
    induction n with
    | zero => exact h
    | succ m ih => simp [mulberryState, ih]
  have hfun : mulberry32 s₁ = mulberry32 s₂ := by
    funext n
    unfold mulberry32
    rw [hstate]
  exact ⟨fun n => by rw [hfun], fun W H grid => by rw [hfun]⟩

theorem C2_determinism_witness :
    42 % M32 = 4294967338 % M32 ∧
      ((∀ n, mulberry32 42 n = mulberry32 4294967338 n) ∧
      ∀ (W H : Nat) (grid : List (List Nat)),
        tileToPlacements W H grid (mulberry32 42) =
          tileToPlacements W H grid (mulberry32 4294967338)) :=
  ⟨by norm_num [M32], C2_determinism 42 4294967338 (by norm_num [M32])⟩

/-- C3: termination bound — the packer commits at most one placement per occupied
cell (so at most `occCount ≤ H*W` placements), and any iteration budget of at
least the number of occupied cells yields the very same run as any other: the
loop has terminated after at most `occCount` iterations. -/
theorem C3_termination_bound (W H : Nat) (grid : List (List Nat)) (rng : Nat → Nat)
    (hv : ValidStream rng) :
    (tileToPlacements W H grid rng).length ≤ occCount (makeMaskFromGrid W H grid) ∧
    occCount (makeMaskFromGrid W H grid) ≤ H * W ∧
    ∀ f₁ f₂ : Nat, occCount (makeMaskFromGrid W H grid) ≤ f₁ →
      occCount (makeMaskFromGrid W H grid) ≤ f₂ →
      tileLoop W H grid rng f₁ 0 (makeMaskFromGrid W H grid) =
        tileLoop W H grid rng f₂ 0 (makeMaskFromGrid W H grid) :=
  ⟨tileLoop_length hv 4000 0 _, occ_makeMask_le W H grid,
    fun f₁ f₂ h1 h2 => tileLoop_fuel_indep hv f₁ f₂ 0 _ h1 h2⟩

theorem C3_termination_bound_witness :
    ValidStream zeros ∧
      ((tileToPlacements 1 1 [[1]] zeros).length ≤ occCount (makeMaskFromGrid 1 1 [[1]]) ∧
      occCount (makeMaskFromGrid 1 1 [[1]]) ≤ 1 * 1 ∧
      ∀ f₁ f₂ : Nat, occCount (makeMaskFromGrid 1 1 [[1]]) ≤ f₁ →
        occCount (makeMaskFromGrid 1 1 [[1]]) ≤ f₂ →
        tileLoop 1 1 [[1]] zeros f₁ 0 (makeMaskFromGrid 1 1 [[1]]) =
          tileLoop 1 1 [[1]] zeros f₂ 0 (makeMaskFromGrid 1 1 [[1]])) :=
  ⟨validStream_zeros, C3_termination_bound 1 1 [[1]] zeros validStream_zeros⟩

/-- C4 (amended): for every valid RNG stream and every grid whose `H*W` is within
the safety bound — in particular every `buildHeatmap` grid, where `H = 7` and
`W ≤ 53` — the 4000-iteration cap is never the reason the loop stops: the run
ends with every occupied cell covered (the final mask is empty).  When the cap
is reached with cells remaining (impossible here, possible only for grids larger
than the bound), the source simply returns the partial list with no error. -/
theorem C4_amended_cap_unreachable (W H : Nat) (grid : List (List Nat)) (rng : Nat → Nat)
    (hv : ValidStream rng) (hb : H * W ≤ 4000) :
    ∀ y x, cellAt (tileLoop W H grid rng 4000 0 (makeMaskFromGrid W H grid)).2.1 y x = false :=
  fun y x => tileLoop_complete hv 4000 0 _ (inBounds_makeMask W H grid)
    (le_trans (occ_makeMask_le W H grid) hb) y x

theorem C4_amended_cap_unreachable_witness :
    ValidStream zeros ∧ 1 * 2 ≤ 4000 ∧
      ∀ y x, cellAt (tileLoop 2 1 [[1, 2]] zeros 4000 0 (makeMaskFromGrid 2 1 [[1, 2]])).2.1
        y x = false :=
  ⟨validStream_zeros, by norm_num,
    C4_amended_cap_unreachable 2 1 [[1, 2]] zeros validStream_zeros (by norm_num)⟩

/-- C5: best-score selection with first-found tie-break — when the shape search
returns a placement `b`, then `b` is a member of the legal candidate list (taken
in catalog order I,O,T,S,Z,J,L, then rotation 0..3, then anchor-offset order),
its score is maximal there, every candidate strictly before it scores strictly
less (first-found wins ties); every candidate is legal, covers the selected
cell, and carries the `bucket`-sum score; every legal catalog placement covering
the selected cell occurs in the candidate list; and the packer loop commits
exactly `b` in that iteration. -/
theorem C5_best_selection (W H : Nat) (grid : List (List Nat)) (mask : List (List Bool))
    (cx cy : Nat) (b : Placement) (hb : bestForCell W H grid mask cx cy = some b) :
    b ∈ candList W H grid mask cx cy ∧
    (∀ c ∈ candList W H grid mask cx cy, c.score ≤ b.score) ∧
    (∃ l₁ l₂, candList W H grid mask cx cy = l₁ ++ b :: l₂ ∧
      ∀ a ∈ l₁, a.score < b.score) ∧
    (∀ c ∈ candList W H grid mask cx cy,
      canPlaceOnMask W H mask c.shape c.ox c.oy = true ∧
      ((cx : Int), (cy : Int)) ∈ coveredCells c ∧
      c.score = placementScore grid c.shape c.ox c.oy ∧
      c.piece ∈ PIECE_ORDER ∧ ∃ rot, rot < 4 ∧ c.shape = (PIECES c.piece).getD rot []) ∧
    (∀ (p : String) (rot : Nat) (ox oy : Int), p ∈ PIECE_ORDER → rot < 4 →
      canPlaceOnMask W H mask ((PIECES p).getD rot []) ox oy = true →
      (∃ d ∈ (PIECES p).getD rot [], ox + d.1 = (cx : Int) ∧ oy + d.2 = (cy : Int)) →
      (⟨p, (PIECES p).getD rot [], ox, oy, none,
        placementScore grid ((PIECES p).getD rot []) ox oy⟩ : Placement) ∈
        candList W H grid mask cx cy) ∧
    (∀ (rng : Nat → Nat) (fuel i : Nat),
      chooseNextCell W H mask (rng i) = some (cx, cy) →
      (tileLoop W H grid rng (fuel + 1) i mask).1 =
        b :: (tileLoop W H grid rng fuel (i + 1)
          (applyPlace mask b.shape b.ox b.oy)).1) := by
  rw [bestForCell_eq_firstMax] at hb
  obtain ⟨hmem, hmax, l₁, l₂, hsplit, hfirst⟩ := firstMax_spec hb
  refine ⟨hmem, hmax, ⟨l₁, l₂, hsplit, hfirst⟩, ?_, ?_, ?_⟩
  · intro c hc
    obtain ⟨h1, h2, h3, h4, -, h5⟩ := candList_mem_spec hc
    exact ⟨h3, h5, h4, h1, h2⟩
  · intro p rot ox oy hp hrot hcan hcov
    exact candList_complete hp hrot hcan hcov
  · intro rng fuel i hch
    simp only [tileLoop, hch]
    have hpc : commitPl W H grid mask cx cy = b := by
      unfold commitPl
      rw [bestForCell_eq_firstMax, hb]
    rw [hpc]

theorem C5_best_selection_witness :
    bestForCell 4 1 [[1, 1, 1, 1]] [[true, true, true, true]] 0 0 =
      some ⟨"I", [(0, 1), (1, 1), (2, 1), (3, 1)], 0, -1, none, 4⟩ ∧
    (⟨"I", [(0, 1), (1, 1), (2, 1), (3, 1)], 0, -1, none, 4⟩ : Placement) ∈
      candList 4 1 [[1, 1, 1, 1]] [[true, true, true, true]] 0 0 :=
  ⟨by decide,
    (C5_best_selection 4 1 [[1, 1, 1, 1]] [[true, true, true, true]] 0 0
      ⟨"I", [(0, 1), (1, 1), (2, 1), (3, 1)], 0, -1, none, 4⟩ (by decide)).1⟩

/-- C6: scheduler monotonicity and run bound — within one run the begin time of
the i-th placement, `r*runDur + i * min(stepDur, (runDur - 0.5)/n)` with `n` the
packer output length, is non-decreasing in `i`, and never exceeds
`runStartTime + runDur` (arithmetic carried out exactly, over `ℚ`). -/
theorem C6_schedule_monotone (W H : Nat) (grid : List (List Nat)) (seed r i j : Nat)
    (hij : i ≤ j) (hj : j < (runPlacements W H grid seed r).length) :
    runBegin W H grid seed r i ≤ runBegin W H grid seed r j ∧
    runBegin W H grid seed r j ≤ (r : ℚ) * runDur + runDur := by
  have hn0 : 0 < (runPlacements W H grid seed r).length := by omega
  have hls_nonneg : 0 ≤ localStep (runPlacements W H grid seed r).length := by
    unfold localStep stepDur runDur
    rw [if_pos hn0]
    apply le_min
    · norm_num
    · apply div_nonneg (by norm_num)
      exact_mod_cast Nat.zero_le _
  constructor
  · unfold runBegin beginTime
    have hijq : (i : ℚ) ≤ j := by exact_mod_cast hij
    nlinarith [hls_nonneg]
  · unfold runBegin beginTime
    have hnpos : (0 : ℚ) < ((runPlacements W H grid seed r).length : ℚ) := by
      exact_mod_cast hn0
    have hjq : (j : ℚ) ≤ ((runPlacements W H grid seed r).length : ℚ) - 1 := by
      have hj1 : (j : ℚ) + 1 ≤ ((runPlacements W H grid seed r).length : ℚ) := by
        exact_mod_cast hj
      linarith
    have hkey : (j : ℚ) * localStep (runPlacements W H grid seed r).length ≤ runDur := by
      unfold localStep
      rw [if_pos hn0]
      have h1 : (j : ℚ) * min stepDur ((runDur - 1/2) / (runPlacements W H grid seed r).length)
          ≤ (j : ℚ) * ((runDur - 1/2) / (runPlacements W H grid seed r).length) :=
        mul_le_mul_of_nonneg_left (min_le_right _ _) (by positivity)
      have hbudget_nonneg :
          (0 : ℚ) ≤ (runDur - 1/2) / (runPlacements W H grid seed r).length := by
        apply div_nonneg (by norm_num [runDur]) (le_of_lt hnpos)
      have h2 : (j : ℚ) * ((runDur - 1/2) / (runPlacements W H grid seed r).length) ≤
          (((runPlacements W H grid seed r).length : ℚ) - 1) *
            ((runDur - 1/2) / (runPlacements W H grid seed r).length) :=
        mul_le_mul_of_nonneg_right hjq hbudget_nonneg
      have h3 : (((runPlacements W H grid seed r).length : ℚ) - 1) *
          ((runDur - 1/2) / (runPlacements W H grid seed r).length) ≤ runDur - 1/2 := by
        rw [mul_div_assoc', div_le_iff₀ hnpos]
        have : (0 : ℚ) ≤ runDur - 1/2 := by norm_num [runDur]
        nlinarith
      have h4 : runDur - 1/2 ≤ runDur := by norm_num [runDur]
      linarith
    linarith

theorem C6_schedule_monotone_witness :
    (0 : Nat) ≤ 0 ∧ 0 < (runPlacements 1 1 [[1]] 0 0).length ∧
      (runBegin 1 1 [[1]] 0 0 0 ≤ runBegin 1 1 [[1]] 0 0 0 ∧
        runBegin 1 1 [[1]] 0 0 0 ≤ ((0 : Nat) : ℚ) * runDur + runDur) :=
  ⟨le_refl 0, by decide,
    C6_schedule_monotone 1 1 [[1]] 0 0 0 0 (le_refl 0) (by decide)⟩

/-- C7 (counterexample): with zero supplied weeks, `buildHeatmap` produces
`W = min(53, 0) = 0` columns, not `max(1, 0) = 1` as the claim states (the grid
still has 7 rows, but each row is empty). -/
theorem C7_counterexample :
    buildHeatmapW [] ≠ max 1 ([] : List WeekRec).length ∧
      buildHeatmapW [] = 0 ∧ (buildHeatmapGrid []).length = 7 := by
  refine ⟨by decide, by decide, ?_⟩
  simp [buildHeatmapGrid]

/-- C7 (amended): the grid always has `H = 7` rows and `W = min(53, supplied
weeks)` columns, so `W ≤ 53` always; whenever at least one week is supplied this
equals `max(1, min(53, weeks))`, but with zero weeks `W = 0`, not 1. -/
theorem C7_amended_grid_dims (weeks : List WeekRec) :
    (buildHeatmapGrid weeks).length = 7 ∧
    (∀ row ∈ buildHeatmapGrid weeks, row.length = buildHeatmapW weeks) ∧
    buildHeatmapW weeks = min 53 weeks.length ∧
    buildHeatmapW weeks ≤ 53 ∧
    (0 < weeks.length → buildHeatmapW weeks = max 1 (min 53 weeks.length)) := by
  refine ⟨by simp [buildHeatmapGrid], ?_, rfl, ?_, ?_⟩
  · intro row hrow
    simp only [buildHeatmapGrid, List.mem_map] at hrow
    obtain ⟨y, -, he⟩ := hrow
    rw [← he]
    simp [buildHeatmapW]
  · unfold buildHeatmapW
    omega
  · intro h
    unfold buildHeatmapW
    omega

theorem C7_amended_grid_dims_witness :
    0 < ([⟨[]⟩] : List WeekRec).length ∧
      buildHeatmapW [⟨[]⟩] = max 1 (min 53 ([⟨[]⟩] : List WeekRec).length) ∧
      (buildHeatmapGrid [⟨[]⟩]).length = 7 :=
  ⟨by decide, (C7_amended_grid_dims [⟨[]⟩]).2.2.2.2 (by decide),
    (C7_amended_grid_dims [⟨[]⟩]).1⟩

/-- C9: grid immutability and run independence — threading the grid through the
ten-run overlay loop as explicit state leaves it exactly equal to the original;
every run's placements are those of one fresh `tileToPlacements` call on the
original grid with a fresh `mulberry32` stream seeded by
`(seed + r*10007) >>> 0`, and so depend on nothing but `(grid, seed, r)`. -/
theorem C9_run_independence (W H : Nat) (grid : List (List Nat)) (seed : Nat) :
    (renderRunsState W H grid seed).1 = grid ∧
    (renderRunsState W H grid seed).2 = allRunPlacements W H grid seed ∧
    ∀ r, r < N_RUNS →
      (allRunPlacements W H grid seed).getD r [] =
        (tileLoop W H grid (mulberry32 ((seed + r * 10007) % M32)) 4000 0
          (makeMaskFromGrid W H grid)).1 := by
  have hfold : ∀ (l : List Nat) (g0 : List (List Nat)) (acc : List (List Placement)),
      l.foldl (fun st r =>
        (st.1, st.2 ++ [tileToPlacements W H st.1 (mulberry32 (runSeed seed r))])) (g0, acc) =
      (g0, acc ++ l.map fun r => tileToPlacements W H g0 (mulberry32 (runSeed seed r))) := by
    intro l
    induction l with
    | nil => intro g0 acc; simp
    | cons r t ih =>
      intro g0 acc
      simp only [List.foldl_cons, List.map_cons]
      rw [ih]
      simp
  refine ⟨?_, ?_, ?_⟩
  · unfold renderRunsState
    rw [hfold]
  · unfold renderRunsState allRunPlacements runPlacements
    rw [hfold]
    simp
  · intro r hr
    unfold allRunPlacements
    rw [getD_map_range, if_pos hr]
    rfl

theorem C9_run_independence_witness :
    0 < N_RUNS ∧ (renderRunsState 1 1 [[1]] 7).1 = [[1]] ∧
      (allRunPlacements 1 1 [[1]] 7).getD 0 [] =
        (tileLoop 1 1 [[1]] (mulberry32 ((7 + 0 * 10007) % M32)) 4000 0
          (makeMaskFromGrid 1 1 [[1]])).1 :=
  ⟨by decide, (C9_run_independence 1 1 [[1]] 7).1,
    (C9_run_independence 1 1 [[1]] 7).2.2 0 (by decide)⟩

/-- C10: placement shape invariant — every placement of the packer either carries
an unmodified catalog rotation of some piece (4 offsets) or is the unit fallback
(`[(0,0)]`, 1 offset), never 2 or 3; its stored score equals the sum of
`bucketLevel(count)` over its covered cells; and, since every covered cell has
count > 0, the score is at least the number of covered cells. -/
theorem C10_placement_invariant (W H : Nat) (grid : List (List Nat)) (rng : Nat → Nat)
    (hv : ValidStream rng) :
    ∀ pl ∈ tileToPlacements W H grid rng,
      ((pl.shape.length = 4 ∧ pl.piece ∈ PIECE_ORDER ∧
        ∃ rot, rot < 4 ∧ pl.shape = (PIECES pl.piece).getD rot []) ∨
       (pl.shape.length = 1 ∧ pl.piece = "P" ∧ pl.shape = [(0, 0)])) ∧
      pl.score = placementScore grid pl.shape pl.ox pl.oy ∧
      pl.shape.length ≤ pl.score := by
  intro pl hpl
  obtain ⟨hshape, hscore⟩ := tileLoop_shape_score 4000 0 (makeMaskFromGrid W H grid) pl hpl
  have hcov := tileLoop_covered_sub hv 4000 0 (makeMaskFromGrid W H grid) pl hpl
  refine ⟨?_, hscore, ?_⟩
  · rcases hshape with ⟨hp, rot, hrot, hsh⟩ | ⟨hp, hsh⟩
    · exact Or.inl ⟨by rw [hsh]; exact catalog_shape_length pl.piece hp rot hrot,
        hp, rot, hrot, hsh⟩
    · exact Or.inr ⟨by rw [hsh]; rfl, hp, hsh⟩
  · rw [hscore, placementScore_eq_sum]
    apply le_sum_map
    intro d hd
    apply bucketLevel_pos
    have hc : (pl.ox + d.1, pl.oy + d.2) ∈ coveredCells pl := coveredCells_iff.mpr ⟨d, hd, rfl⟩
    obtain ⟨⟨hz1, hz2, hz3⟩, -⟩ := hcov _ hc
    rw [cellAt_makeMask] at hz3
    simp only [decide_eq_true_eq] at hz3
    exact hz3.2.2

theorem C10_placement_invariant_witness :
    ValidStream zeros ∧
      ∀ pl ∈ tileToPlacements 2 1 [[1, 2]] zeros,
        ((pl.shape.length = 4 ∧ pl.piece ∈ PIECE_ORDER ∧
          ∃ rot, rot < 4 ∧ pl.shape = (PIECES pl.piece).getD rot []) ∨
         (pl.shape.length = 1 ∧ pl.piece = "P" ∧ pl.shape = [(0, 0)])) ∧
        pl.score = placementScore [[1, 2]] pl.shape pl.ox pl.oy ∧
        pl.shape.length ≤ pl.score :=
  ⟨validStream_zeros, C10_placement_invariant 2 1 [[1, 2]] zeros validStream_zeros⟩

/-! ### Isolated cells admit no tetromino placement -/

lemma cellAt_true_lt {mask : List (List Bool)} {y x : Nat} (h : cellAt mask y x = true) :
    y < mask.length ∧ x < (mask.getD y []).length := by
  by_cases hy : y < mask.length
  · refine ⟨hy, ?_⟩
    by_cases hx : x < (mask.getD y []).length
    · exact hx
    · exfalso
      unfold cellAt at h
      rw [List.getD_eq_getElem?_getD (mask.getD y []) x false,
        List.getElem?_eq_none (by omega)] at h
      simp at h
  · exfalso
    unfold cellAt at h
    rw [List.getD_eq_getElem?_getD mask y [], List.getElem?_eq_none (by omega)] at h
    simp at h

lemma noAdjB_spec {mask : List (List Bool)} (h : noAdjB mask = true) : NoAdj mask := by
  intro y x hc
  obtain ⟨hy, hx⟩ := cellAt_true_lt hc
  unfold noAdjB at h
  rw [List.all_eq_true] at h
  have h1 := h y (List.mem_range.mpr hy)
  rw [List.all_eq_true] at h1
  have h2 := h1 x (List.mem_range.mpr hx)
  rw [hc] at h2
  simp only [Bool.not_true, Bool.false_or, Bool.and_eq_true, Bool.not_eq_eq_eq_not] at h2
  exact ⟨h2.1, h2.2⟩

lemma canPlace_false_of_noAdj {W H : Nat} {mask : List (List Bool)}
    {shape : List (Int × Int)} {ox oy : Int} (hna : NoAdj mask)
    (hadj : hasAdjPairB shape = true) :
    canPlaceOnMask W H mask shape ox oy = false := by
  by_contra hcontra
  have hcan : canPlaceOnMask W H mask shape ox oy = true := by
    cases hcp : canPlaceOnMask W H mask shape ox oy
    · exact absurd hcp hcontra
    · rfl
  have hs := canPlace_sound hcan
  unfold hasAdjPairB at hadj
  rw [List.any_eq_true] at hadj
  obtain ⟨d1, hd1, hadj1⟩ := hadj
  rw [List.any_eq_true] at hadj1
  obtain ⟨d2, hd2, hadj2⟩ := hadj1
  rw [decide_eq_true_eq] at hadj2
  obtain ⟨ha1, hb1, hc1, hd1a, h1cell⟩ := hs d1 hd1
  obtain ⟨ha2, hb2, hc2, hd2a, h2cell⟩ := hs d2 hd2
  have hno := hna (oy + d1.2).toNat (ox + d1.1).toNat h1cell
  rcases hadj2 with ⟨hx, hy⟩ | ⟨hy, hx⟩
  · have e1 : (oy + d2.2).toNat = (oy + d1.2).toNat + 1 := by omega
    have e2 : (ox + d2.1).toNat = (ox + d1.1).toNat := by omega
    rw [e1, e2] at h2cell
    rw [hno.1] at h2cell
    exact absurd h2cell (by simp)
  · have e1 : (oy + d2.2).toNat = (oy + d1.2).toNat := by omega
    have e2 : (ox + d2.1).toNat = (ox + d1.1).toNat + 1 := by omega
    rw [e1, e2] at h2cell
    rw [hno.2] at h2cell
    exact absurd h2cell (by simp)

lemma allCatalog_hasAdj : ∀ p ∈ PIECE_ORDER, ∀ rot < 4,
    hasAdjPairB ((PIECES p).getD rot []) = true := by decide

lemma candList_nil_of_noAdj {W H : Nat} {grid : List (List Nat)} {mask : List (List Bool)}
    {cx cy : Nat} (hna : NoAdj mask) : candList W H grid mask cx cy = [] := by
  unfold candList
  rw [List.flatMap_eq_nil_iff]
  intro p hp
  rw [List.flatMap_eq_nil_iff]
  intro rot hrot
  rw [List.filterMap_eq_nil_iff]
  intro d hd
  rw [if_neg]
  rw [canPlace_false_of_noAdj hna (allCatalog_hasAdj p hp rot (List.mem_range.mp hrot))]
  simp

lemma bestForCell_none_of_noAdj {W H : Nat} {grid : List (List Nat)}
    {mask : List (List Bool)} {cx cy : Nat} (hna : NoAdj mask) :
    bestForCell W H grid mask cx cy = none := by
  rw [bestForCell_eq_firstMax, candList_nil_of_noAdj hna]
  rfl

lemma chooseNextCell_singleton {W H : Nat} {mask : List (List Bool)} {r y : Nat}
    (hscan : scanRows W mask H = some (y, [0])) (hr : r < M32) :
    chooseNextCell W H mask r = some (0, y) := by
  unfold chooseNextCell
  rw [hscan]
  simp [Nat.div_eq_of_lt hr]

lemma tileLoop_step {W H : Nat} {grid : List (List Nat)} {rng : Nat → Nat}
    {mask : List (List Bool)} {i cx cy : Nat}
    (hch : chooseNextCell W H mask (rng i) = some (cx, cy)) (fuel : Nat) :
    (tileLoop W H grid rng (fuel + 1) i mask).1 =
      commitPl W H grid mask cx cy ::
        (tileLoop W H grid rng fuel (i + 1)
          (applyPlace mask (commitPl W H grid mask cx cy).shape
            (commitPl W H grid mask cx cy).ox (commitPl W H grid mask cx cy).oy)).1 := by
  simp only [tileLoop, hch]

/-- C8: isolated-cells example — on the 1-column grid with counts
`[0,3,0,5,0,0,9]` no catalog shape is ever legal (each occupied cell is
isolated), so for every valid RNG stream the packer returns exactly three unit
fallbacks, one per occupied cell, bottom-most first: row 6 with score
`bucket 9 = 3`, row 3 with score `bucket 5 = 2`, row 1 with score `bucket 3 = 2`. -/
theorem C8_isolated_cells (rng : Nat → Nat) (hv : ValidStream rng) :
    tileToPlacements 1 7 [[0], [3], [0], [5], [0], [0], [9]] rng =
      [⟨"P", [(0, 0)], 0, 6, some "#26a641", 3⟩,
       ⟨"P", [(0, 0)], 0, 3, some "#006d32", 2⟩,
       ⟨"P", [(0, 0)], 0, 1, some "#006d32", 2⟩] ∧
    ∀ p ∈ PIECE_ORDER, ∀ rot < 4, ∀ ox oy : Int,
      canPlaceOnMask 1 7 (makeMaskFromGrid 1 7 [[0], [3], [0], [5], [0], [0], [9]])
        ((PIECES p).getD rot []) ox oy = false := by
  have hm0 : makeMaskFromGrid 1 7 [[0], [3], [0], [5], [0], [0], [9]] =
      [[false], [true], [false], [true], [false], [false], [true]] := by decide
  constructor
  · unfold tileToPlacements
    rw [hm0]
    rw [tileLoop_fuel_indep hv 4000 3 0 _ (by decide) (by decide)]
    have hch0 : chooseNextCell 1 7 [[false], [true], [false], [true], [false], [false], [true]]
        (rng 0) = some (0, 6) := chooseNextCell_singleton (by decide) (hv 0)
    rw [tileLoop_step hch0 2]
    have ha0 : applyPlace [[false], [true], [false], [true], [false], [false], [true]]
        (commitPl 1 7 [[0], [3], [0], [5], [0], [0], [9]]
          [[false], [true], [false], [true], [false], [false], [true]] 0 6).shape
        (commitPl 1 7 [[0], [3], [0], [5], [0], [0], [9]]
          [[false], [true], [false], [true], [false], [false], [true]] 0 6).ox
        (commitPl 1 7 [[0], [3], [0], [5], [0], [0], [9]]
          [[false], [true], [false], [true], [false], [false], [true]] 0 6).oy =
        [[false], [true], [false], [true], [false], [false], [false]] := by decide
    have hc0 : commitPl 1 7 [[0], [3], [0], [5], [0], [0], [9]]
        [[false], [true], [false], [true], [false], [false], [true]] 0 6 =
        ⟨"P", [(0, 0)], 0, 6, some "#26a641", 3⟩ := by decide
    rw [ha0, hc0]
    have hch1 : chooseNextCell 1 7 [[false], [true], [false], [true], [false], [false], [false]]
        (rng 1) = some (0, 3) := chooseNextCell_singleton (by decide) (hv 1)
    rw [tileLoop_step hch1 1]
    have ha1 : applyPlace [[false], [true], [false], [true], [false], [false], [false]]
        (commitPl 1 7 [[0], [3], [0], [5], [0], [0], [9]]
          [[false], [true], [false], [true], [false], [false], [false]] 0 3).shape
        (commitPl 1 7 [[0], [3], [0], [5], [0], [0], [9]]
          [[false], [true], [false], [true], [false], [false], [false]] 0 3).ox
        (commitPl 1 7 [[0], [3], [0], [5], [0], [0], [9]]
          [[false], [true], [false], [true], [false], [false], [false]] 0 3).oy =
        [[false], [true], [false], [false], [false], [false], [false]] := by decide
    have hc1 : commitPl 1 7 [[0], [3], [0], [5], [0], [0], [9]]
        [[false], [true], [false], [true], [false], [false], [false]] 0 3 =
        ⟨"P", [(0, 0)], 0, 3, some "#006d32", 2⟩ := by decide
    rw [ha1, hc1]
    have hch2 : chooseNextCell 1 7 [[false], [true], [false], [false], [false], [false], [false]]
        (rng 2) = some (0, 1) := chooseNextCell_singleton (by decide) (hv 2)
    rw [tileLoop_step hch2 0]
    have ha2 : applyPlace [[false], [true], [false], [false], [false], [false], [false]]
        (commitPl 1 7 [[0], [3], [0], [5], [0], [0], [9]]
          [[false], [true], [false], [false], [false], [false], [false]] 0 1).shape
        (commitPl 1 7 [[0], [3], [0], [5], [0], [0], [9]]
          [[false], [true], [false], [false], [false], [false], [false]] 0 1).ox
        (commitPl 1 7 [[0], [3], [0], [5], [0], [0], [9]]
          [[false], [true], [false], [false], [false], [false], [false]] 0 1).oy =
        [[false], [false], [false], [false], [false], [false], [false]] := by decide
    have hc2 : commitPl 1 7 [[0], [3], [0], [5], [0], [0], [9]]
        [[false], [true], [false], [false], [false], [false], [false]] 0 1 =
        ⟨"P", [(0, 0)], 0, 1, some "#006d32", 2⟩ := by decide
    rw [ha2, hc2]
    simp [tileLoop]
  · intro p hp rot hrot ox oy
    rw [hm0]
    exact canPlace_false_of_noAdj (noAdjB_spec (by decide)) (allCatalog_hasAdj p hp rot hrot)

theorem C8_isolated_cells_witness :
    ValidStream zeros ∧
      (tileToPlacements 1 7 [[0], [3], [0], [5], [0], [0], [9]] zeros =
        [⟨"P", [(0, 0)], 0, 6, some "#26a641", 3⟩,
         ⟨"P", [(0, 0)], 0, 3, some "#006d32", 2⟩,
         ⟨"P", [(0, 0)], 0, 1, some "#006d32", 2⟩] ∧
      ∀ p ∈ PIECE_ORDER, ∀ rot < 4, ∀ ox oy : Int,
        canPlaceOnMask 1 7 (makeMaskFromGrid 1 7 [[0], [3], [0], [5], [0], [0], [9]])
          ((PIECES p).getD rot []) ox oy = false) :=
  ⟨validStream_zeros, C8_isolated_cells zeros validStream_zeros⟩

/-! ### The safety cap on a grid of more than 4000 isolated cells -/

lemma gridAt_altGrid (m y x : Nat) :
    gridAt (altGrid m) y x = if y < 2*m-1 ∧ x = 0 ∧ y % 2 = 0 then 1 else 0 := by
  unfold gridAt altGrid
  rw [getD_map_range]
  by_cases hy : y < 2*m-1
  · rw [if_pos hy]
    cases x with
    | zero =>
      by_cases hp : y % 2 = 0 <;> simp [hy, hp]
    | succ n =>
      simp [hy]
  · rw [if_neg hy]
    simp [hy]

lemma cellAt_maskState (m k y x : Nat) :
    cellAt (maskState m k) y x = decide (x = 0 ∧ y % 2 = 0 ∧ y + 2*k < 2*m-1) := by
  unfold maskState cellAt
  rw [getD_map_range]
  by_cases hy : y < 2*m-1
  · rw [if_pos hy]
    cases x with
    | zero =>
      simp only [List.getD_cons_zero]
      rw [decide_eq_decide]
      tauto
    | succ n =>
      simp only [List.getD_cons_succ, List.getD_nil]
      symm
      apply decide_eq_false
      omega
  · rw [if_neg hy]
    simp only [List.getD_nil]
    symm
    apply decide_eq_false
    omega

lemma noAdj_maskState (m k : Nat) : NoAdj (maskState m k) := by
  intro y x hc
  rw [cellAt_maskState] at hc
  simp only [decide_eq_true_eq] at hc
  constructor <;> rw [cellAt_maskState] <;> apply decide_eq_false <;> omega

lemma makeMask_altGrid (m : Nat) :
    makeMaskFromGrid 1 (2*m-1) (altGrid m) = maskState m 0 := by
  unfold makeMaskFromGrid maskState
  apply List.map_congr_left
  intro y hy
  rw [List.mem_range] at hy
  rw [show List.range 1 = [0] from rfl]
  simp only [List.map_cons, List.map_nil]
  congr 1
  rw [gridAt_altGrid, decide_eq_decide]
  split_ifs with h <;> omega

lemma trueXs_one (mask : List (List Bool)) (y : Nat) :
    trueXs 1 mask y = if cellAt mask y 0 = true then [0] else [] := by
  unfold trueXs
  rw [show List.range 1 = [0] from rfl]
  by_cases h : cellAt mask y 0 = true <;> simp [h]

lemma scan_maskState (m k : Nat) (hk : k + 1 ≤ m) :
    scanRows 1 (maskState m k) (2*m-1) = some (2*m-2*k-2, [0]) := by
  have hxs : trueXs 1 (maskState m k) (2*m-2*k-2) = [0] := by
    rw [trueXs_one, cellAt_maskState, if_pos]
    rw [decide_eq_true_eq]
    omega
  have hall : ∀ y', 2*m-2*k-2 < y' → y' < 2*m-1 → trueXs 1 (maskState m k) y' = [] := by
    intro y' h1 h2
    rw [trueXs_one, cellAt_maskState, if_neg]
    rw [decide_eq_true_eq]
    omega
  have h := scanRows_intro (by rw [hxs]; simp) (by omega) hall
  rw [hxs] at h
  exact h

lemma commit_maskState (m k : Nat) (hk : k + 1 ≤ m) :
    commitPl 1 (2*m-1) (altGrid m) (maskState m k) 0 (2*m-2*k-2) = fallbackPl m k := by
  unfold commitPl
  rw [bestForCell_none_of_noAdj (noAdj_maskState m k)]
  unfold fallbackPl
  have hg : gridAt (altGrid m) (2*m-2*k-2) 0 = 1 := by
    rw [gridAt_altGrid, if_pos (by omega)]
  rw [hg]
  rw [show bucketLevel 1 = 1 from by decide]
  simp

lemma applyStep_maskState (m k : Nat) (hk : k + 1 < m) :
    setCellFalse (maskState m k) (2*m - 2*k - 2) 0 = maskState m (k + 1) := by
  unfold maskState
  apply List.ext_getElem
  · simp [setCellFalse]
  · intro y hy1 hy2
    have hy : y < 2*m-1 := by simpa using hy2
    unfold setCellFalse
    rw [List.getElem_set]
    by_cases he : 2*m-2*k-2 = y
    · rw [if_pos he]
      subst he
      rw [getD_map_range, if_pos (by omega)]
      rw [List.getElem_map, List.getElem_range]
      rw [show decide ((2*m-2*k-2) % 2 = 0 ∧ (2*m-2*k-2) + 2*k < 2*m-1) = true from
        decide_eq_true (by omega)]
      rw [show decide ((2*m-2*k-2) % 2 = 0 ∧ (2*m-2*k-2) + 2*(k+1) < 2*m-1) = false from
        decide_eq_false (by omega)]
      rfl
    · rw [if_neg he]
      rw [List.getElem_map, List.getElem_range, List.getElem_map, List.getElem_range]
      congr 1
      rw [decide_eq_decide]
      omega

lemma apply_maskState (m k : Nat) (hk : k + 1 < m) :
    applyPlace (maskState m k) (fallbackPl m k).shape (fallbackPl m k).ox
      (fallbackPl m k).oy = maskState m (k + 1) := by
  show applyPlace (maskState m k) [(0, 0)] 0 ((2*m - 2*k - 2 : Nat) : Int) = _
  unfold applyPlace
  simp only [List.foldl_cons, List.foldl_nil]
  have e1 : (((2*m - 2*k - 2 : Nat) : Int) + (0, 0).2).toNat = 2*m - 2*k - 2 := by
    simp
  have e2 : ((0 : Int) + (0, 0).1).toNat = 0 := by simp
  rw [e1, e2]
  exact applyStep_maskState m k hk

lemma tileLoopAlt (m : Nat) : ∀ (fuel k i : Nat), k + fuel + 1 ≤ m →
    tileLoop 1 (2*m-1) (altGrid m) zeros fuel i (maskState m k) =
      ((List.range fuel).map (fun j => fallbackPl m (k + j)),
        maskState m (k + fuel), i + fuel) := by
  intro fuel
  induction fuel with
  | zero =>
    intro k i h
    simp [tileLoop]
  | succ f ih =>
    intro k i h
    have hch : chooseNextCell 1 (2*m-1) (maskState m k) (zeros i) =
        some (0, 2*m-2*k-2) :=
      chooseNextCell_singleton (scan_maskState m k (by omega)) (validStream_zeros i)
    simp only [tileLoop, hch]
    rw [commit_maskState m k (by omega)]
    rw [apply_maskState m k (by omega)]
    rw [ih (k+1) (i+1) (by omega)]
    have hlist : (List.range (f+1)).map (fun j => fallbackPl m (k+j)) =
        fallbackPl m k :: (List.range f).map fun j => fallbackPl m (k+1+j) := by
      rw [List.range_succ_eq_map, List.map_cons, List.map_map]
      congr 1
      apply List.map_congr_left
      intro j _
      simp only [Function.comp_apply]
      congr 1
      omega
    rw [hlist]
    have e1 : k + 1 + f = k + (f + 1) := by omega
    have e2 : i + 1 + f = i + (f + 1) := by omega
    rw [e1, e2]

/-- C4 (counterexample): on a 1-column grid of 4001 isolated occupied cells
(counts alternating 1,0,...,1 over 8001 rows) the packer exhausts all 4000
safety-cap iterations with an occupied cell — `(0,0)`, count 1 — still
uncovered, and returns the partial 4000-placement list as a normal value: the
condition is not surfaced as any error. -/
theorem C4_counterexample :
    (tileToPlacements 1 8001 (altGrid 4001) zeros).length = 4000 ∧
    0 < gridAt (altGrid 4001) 0 0 ∧
    ∀ pl ∈ tileToPlacements 1 8001 (altGrid 4001) zeros,
      ((0 : Int), (0 : Int)) ∉ coveredCells pl := by
  have hmain : tileToPlacements 1 8001 (altGrid 4001) zeros =
      (List.range 4000).map fun j => fallbackPl 4001 j := by
    unfold tileToPlacements
    rw [show (8001 : Nat) = 2*4001-1 from by norm_num]
    rw [makeMask_altGrid 4001]
    rw [tileLoopAlt 4001 4000 0 0 (by norm_num)]
    simp
  refine ⟨?_, ?_, ?_⟩
  · rw [hmain]
    simp
  · rw [gridAt_altGrid]
    norm_num
  · intro pl hpl
    rw [hmain] at hpl
    simp only [List.mem_map, List.mem_range] at hpl
    obtain ⟨j, hj, he⟩ := hpl
    rw [← he]
    simp only [coveredCells, fallbackPl, List.map_cons, List.map_nil, List.mem_singleton]
    intro hcon
    obtain ⟨h1, h2⟩ := Prod.mk.injEq _ _ _ _ ▸ hcon
    omega
